import Mathlib

/-!
The motor driver of spirit: the A3921 H-bridge drive algorithm and the command codec.

A shallow embedding of `source/A3921.cpp`, followed by a model of the command codec
exercised by `tests/test_MotorDataConverter.cpp`.

* `float` values are modelled by rationals (exact arithmetic, no rounding).
* The output pins and the error singleton are external collaborators; every call
  made on them is recorded, in program order, as an `Event` appended to the
  `trace` carried beside the staged fields.
* An `enum class` object can hold a number that is none of its enumerators (an
  invalid cast); such a value is the `Unknown` constructor, the one the `default:`
  label of a `switch` receives.
-/

set_option autoImplicit false

namespace spirit

namespace Motor

/-- Modelled from the spec: `Motor.h` is not among the sources. The four run states
named by the `case` labels of `A3921.cpp`; `Unknown raw` is a stored number `raw`
that is none of the enumerators. -/
inductive State where
  | Coast
  | CW
  | CCW
  | Brake
  | Unknown (raw : Int)
  deriving DecidableEq, Repr

/-- Modelled from the spec: `Motor.h` is not among the sources. The three decay
modes named by the `case` labels of `A3921.cpp`; `Unknown raw` is a stored number
that is none of the enumerators. -/
inductive Decay where
  | Slow
  | Fast
  | Mixed
  | Unknown (raw : Int)
  deriving DecidableEq, Repr

/-- Modelled from the spec: `Motor.h` is not among the sources. The two modulated
sides named by the `case` labels of `A3921.cpp`; `Unknown raw` is a stored number
that is none of the enumerators. -/
inductive PwmSide where
  | Low
  | High
  | Unknown (raw : Int)
  deriving DecidableEq, Repr

end Motor

namespace Error

/-- The two kinds of diagnostic `A3921.cpp` passes to `Error::error`. -/
inductive Kind where
  | UnknownValue
  | InvalidValue
  deriving DecidableEq, Repr

/-- The value substituted into the message format by `snprintf`, if any. -/
inductive Arg where
  | none
  | uint32 (n : Nat)
  | float (x : ℚ)
  deriving DecidableEq, Repr

/-- One call `error.error(type, code, message, __FILE__, __func__, __LINE__)`:
the kind, the numeric code, the message format with its argument, and the
reporting function. -/
structure Report where
  kind : Kind
  code : Nat
  format : String
  arg : Arg
  func : String
  deriving DecidableEq, Repr

end Error

/-- The value of `static_cast<uint32_t>(x)` for a stored enum number `x`. -/
def to_uint32 (raw : Int) : Nat := (raw % 4294967296).toNat

/-- The two digital outputs held by the driver. -/
inductive DigitalPin where
  | sr
  | reset
  deriving DecidableEq, Repr

/-- The three PWM outputs held by the driver. -/
inductive PwmPin where
  | pwmh
  | pwml
  | phase
  deriving DecidableEq, Repr

/-- One observable call on an external collaborator. -/
inductive Event where
  | digital_write (pin : DigitalPin) (value : Int)
  | pwm_write (pin : PwmPin) (value : ℚ)
  | period (pin : PwmPin) (seconds : ℚ)
  | call_sleep
  | error (report : Error.Report)
  deriving DecidableEq, Repr

/-- The staged command of the driver, `_duty_cycle`, `_state`, `_decay` and
`_pwm_side`, and the calls made so far on the outputs and on the error sink. -/
structure A3921 where
  _duty_cycle : ℚ
  _state : Motor.State
  _decay : Motor.Decay
  _pwm_side : Motor.PwmSide
  trace : List Event
  deriving DecidableEq, Repr

/-- Append one call to the trace. -/
def A3921.emit (m : A3921) (e : Event) : A3921 :=
  { m with trace := m.trace ++ [e] }

/-- The call `_sr.write(value)`. -/
def A3921.sr_write (m : A3921) (value : Int) : A3921 :=
  m.emit (Event.digital_write DigitalPin.sr value)

/-- The call `_reset.write(value)`. -/
def A3921.reset_write (m : A3921) (value : Int) : A3921 :=
  m.emit (Event.digital_write DigitalPin.reset value)

/-- The call `_pwmh.write(value)`. -/
def A3921.pwmh_write (m : A3921) (value : ℚ) : A3921 :=
  m.emit (Event.pwm_write PwmPin.pwmh value)

/-- The call `_pwml.write(value)`. -/
def A3921.pwml_write (m : A3921) (value : ℚ) : A3921 :=
  m.emit (Event.pwm_write PwmPin.pwml value)

/-- The call `_phase.write(value)`. -/
def A3921.phase_write (m : A3921) (value : ℚ) : A3921 :=
  m.emit (Event.pwm_write PwmPin.phase value)

/-- The call `error.error(kind, 0, message, __FILE__, __func__, __LINE__)`. -/
def A3921.error (m : A3921) (kind : Error.Kind) (format : String) (arg : Error.Arg)
    (func : String) : A3921 :=
  m.emit (Event.error ⟨kind, 0, format, arg, func⟩)

/-- `A3921::sleep(enabled)`. -/
def A3921.sleep (m : A3921) (enabled : Bool) : A3921 :=
  if enabled then m.reset_write 0 else m.reset_write 1

/-- `A3921::reset(sleep)`: the supplied callable is an external collaborator,
its invocation is recorded as `Event.call_sleep`. -/
def A3921.reset (m : A3921) : A3921 :=
  ((m.reset_write 0).emit Event.call_sleep).reset_write 1

/-- `A3921::duty_cycle(value)`. -/
def A3921.duty_cycle (m : A3921) (value : ℚ) : A3921 :=
  { m with _duty_cycle := value }

/-- `A3921::state(type)`. -/
def A3921.state (m : A3921) (type : Motor.State) : A3921 :=
  match type with
  | Motor.State.Coast | Motor.State.CW | Motor.State.CCW | Motor.State.Brake =>
      { m with _state := type }
  | Motor.State.Unknown raw =>
      m.error Error.Kind.UnknownValue "Unknown motor state (%d)"
        (Error.Arg.uint32 (to_uint32 raw)) "state"

/-- `A3921::decay(type)`. -/
def A3921.decay (m : A3921) (type : Motor.Decay) : A3921 :=
  match type with
  | Motor.Decay.Slow | Motor.Decay.Fast =>
      { m with _decay := type }
  | Motor.Decay.Mixed =>
      m.error Error.Kind.InvalidValue "Invalid motor decay (Motor::Decay::Mixed)"
        Error.Arg.none "decay"
  | Motor.Decay.Unknown raw =>
      m.error Error.Kind.UnknownValue "Unknown motor decay (%d)"
        (Error.Arg.uint32 (to_uint32 raw)) "decay"

/-- `A3921::pwm_side(type)`. -/
def A3921.pwm_side (m : A3921) (type : Motor.PwmSide) : A3921 :=
  match type with
  | Motor.PwmSide.Low | Motor.PwmSide.High =>
      { m with _pwm_side := type }
  | Motor.PwmSide.Unknown raw =>
      m.error Error.Kind.UnknownValue "Unknown motor pwm side (%d)"
        (Error.Arg.uint32 (to_uint32 raw)) "pwm_side"

/-- The second `switch` of `A3921::run_slow_decay`, on `_state`, with the two
locals computed by the first. -/
def A3921.run_slow_decay_state (m : A3921) (pwm_low_side pwm_high_side : ℚ) : A3921 :=
  match m._state with
  | Motor.State.Coast =>
      (((m.sr_write 0).pwmh_write 0).pwml_write 0).phase_write 0
  | Motor.State.CW =>
      (((m.sr_write 1).pwmh_write pwm_high_side).pwml_write pwm_low_side).phase_write 1
  | Motor.State.CCW =>
      (((m.sr_write 1).pwmh_write pwm_high_side).pwml_write pwm_low_side).phase_write 0
  | Motor.State.Brake =>
      (((m.sr_write 1).pwmh_write 0).pwml_write 1).phase_write 0
  | Motor.State.Unknown raw =>
      m.error Error.Kind.UnknownValue "Unknown motor state (%d)"
        (Error.Arg.uint32 (to_uint32 raw)) "run_slow_decay"

/-- `A3921::run_slow_decay()`: the first `switch`, on `_pwm_side`, sets the two
locals or reports and returns; the second writes the outputs. -/
def A3921.run_slow_decay (m : A3921) : A3921 :=
  match m._pwm_side with
  | Motor.PwmSide.Low => m.run_slow_decay_state m._duty_cycle 1
  | Motor.PwmSide.High => m.run_slow_decay_state 1 m._duty_cycle
  | Motor.PwmSide.Unknown raw =>
      m.error Error.Kind.UnknownValue "Unknown motor pwm side (%d)"
        (Error.Arg.uint32 (to_uint32 raw)) "run_slow_decay"

/-- `A3921::run_fast_decay()`. -/
def A3921.run_fast_decay (m : A3921) : A3921 :=
  match m._state with
  | Motor.State.Coast =>
      (((m.sr_write 0).pwmh_write 0).pwml_write 0).phase_write 0
  | Motor.State.CW =>
      (((m.sr_write 0).pwmh_write 1).pwml_write 1).phase_write (1 / 2 + m._duty_cycle / 2)
  | Motor.State.CCW =>
      (((m.sr_write 0).pwmh_write 1).pwml_write 1).phase_write (1 / 2 - m._duty_cycle / 2)
  | Motor.State.Brake =>
      (((m.sr_write 0).pwmh_write 0).pwml_write 1).phase_write 0
  | Motor.State.Unknown raw =>
      m.error Error.Kind.UnknownValue "Unknown motor state (%d)"
        (Error.Arg.uint32 (to_uint32 raw)) "run_fast_decay"

/-- `A3921::run()`. -/
def A3921.run (m : A3921) : A3921 :=
  match m._decay with
  | Motor.Decay.Slow => m.run_slow_decay
  | Motor.Decay.Fast => m.run_fast_decay
  | Motor.Decay.Mixed =>
      m.error Error.Kind.InvalidValue "Invalid motor decay (Motor::Decay::Mixed)"
        Error.Arg.none "run"
  | Motor.Decay.Unknown raw =>
      m.error Error.Kind.UnknownValue "Unknown motor decay (%d)"
        (Error.Arg.uint32 (to_uint32 raw)) "run"

/-- `A3921::pulse_period(seconds)`; the bounds `Motor::min_pulse_period` and
`Motor::max_pulse_period` are declared in `Motor.h`, which is not among the
sources, and are taken as parameters. -/
def A3921.pulse_period (min_pulse_period max_pulse_period : ℚ) (m : A3921) (seconds : ℚ) :
    A3921 :=
  if min_pulse_period ≤ seconds ∧ seconds ≤ max_pulse_period then
    ((m.emit (Event.period PwmPin.pwmh seconds)).emit
      (Event.period PwmPin.pwml seconds)).emit (Event.period PwmPin.phase seconds)
  else
    m.error Error.Kind.InvalidValue "Invalid motor pulse period (%1.4e)"
      (Error.Arg.float seconds) "pulse_period"

/-- Modelled from the spec: the member initialisers of `A3921.h` are not among
the sources. A command entity is constructed with the safe defaults Coast,
SlowDecay, LowSideModulated and zero duty; nothing has been called yet. -/
def A3921.initial : A3921 :=
  { _duty_cycle := 0
    _state := Motor.State.Coast
    _decay := Motor.Decay.Slow
    _pwm_side := Motor.PwmSide.Low
    trace := [] }

/-- The constructor `A3921::A3921(...)`; `Motor::Default::pulse_period` is declared
in `Motor.h`, which is not among the sources, and is taken as a parameter. -/
def A3921.ctor (pulse_period : ℚ) : A3921 :=
  ((((A3921.initial.sleep false).emit (Event.period PwmPin.pwmh pulse_period)).emit
    (Event.period PwmPin.pwml pulse_period)).emit (Event.period PwmPin.phase pulse_period)).run

/-- A staged command whose three enumerations all hold a value the driver
supports: one of the four run states, Slow or Fast, Low or High. -/
def A3921.supported (m : A3921) : Prop :=
  (m._state = Motor.State.Coast ∨ m._state = Motor.State.CW ∨ m._state = Motor.State.CCW ∨
      m._state = Motor.State.Brake) ∧
    (m._decay = Motor.Decay.Slow ∨ m._decay = Motor.Decay.Fast) ∧
    (m._pwm_side = Motor.PwmSide.Low ∨ m._pwm_side = Motor.PwmSide.High)

instance (m : A3921) : Decidable m.supported := by
  unfold A3921.supported
  infer_instance

/-- The four writes of one successful `run()`: the bridge enable level and the
three duty fractions, in the order the source issues them. -/
def four_writes (bridge_enable : Int) (pwm_high_side pwm_low_side phase : ℚ) : List Event :=
  [Event.digital_write DigitalPin.sr bridge_enable,
   Event.pwm_write PwmPin.pwmh pwm_high_side,
   Event.pwm_write PwmPin.pwml pwm_low_side,
   Event.pwm_write PwmPin.phase phase]

/-- The driver with the same staged fields and the calls `es` made after those
already in the trace. -/
def A3921.emits (m : A3921) (es : List Event) : A3921 :=
  { m with trace := m.trace ++ es }

/-- One call of a setter that stages a field of the command. -/
inductive Setter where
  | duty_cycle (value : ℚ)
  | state (type : Motor.State)
  | decay (type : Motor.Decay)
  | pwm_side (type : Motor.PwmSide)
  deriving DecidableEq, Repr

/-- Perform one setter call on the driver. -/
def A3921.set (m : A3921) : Setter → A3921
  | Setter.duty_cycle value => m.duty_cycle value
  | Setter.state type => m.state type
  | Setter.decay type => m.decay type
  | Setter.pwm_side type => m.pwm_side type

/-- One call of the public interface that stages a field or recomputes the
outputs. -/
inductive Call where
  | set (s : Setter)
  | run
  deriving DecidableEq, Repr

/-- Perform one call on the driver. -/
def A3921.call (m : A3921) : Call → A3921
  | Call.set s => m.set s
  | Call.run => m.run

/-- Perform a sequence of calls, first to last. -/
def A3921.calls (m : A3921) (cs : List Call) : A3921 :=
  cs.foldl A3921.call m

/-- Whether an event is a call on the Output Sink (a level, a duty or a period)
and not a diagnostic or the delay callable. -/
def Event.is_sink_write : Event → Bool
  | Event.digital_write _ _ => true
  | Event.pwm_write _ _ => true
  | Event.period _ _ => true
  | Event.call_sleep => false
  | Event.error _ => false

/-- The calls of a trace made on the Output Sink, in order. -/
def sink_writes (t : List Event) : List Event :=
  t.filter Event.is_sink_write

/-- The signal tables of the drive algorithm as the specification words them:
slow decay holds one side at 1 and modulates the side named by `pwm_side`, fast
decay modulates the phase alone and does not look at `pwm_side`. A combination
with no row has no entry. -/
def signal_table (decay : Motor.Decay) (side : Motor.PwmSide) (state : Motor.State) (d : ℚ) :
    Option (List Event) :=
  match decay, side, state with
  | Motor.Decay.Slow, Motor.PwmSide.Low, Motor.State.Coast => some (four_writes 0 0 0 0)
  | Motor.Decay.Slow, Motor.PwmSide.Low, Motor.State.CW => some (four_writes 1 1 d 1)
  | Motor.Decay.Slow, Motor.PwmSide.Low, Motor.State.CCW => some (four_writes 1 1 d 0)
  | Motor.Decay.Slow, Motor.PwmSide.Low, Motor.State.Brake => some (four_writes 1 0 1 0)
  | Motor.Decay.Slow, Motor.PwmSide.High, Motor.State.Coast => some (four_writes 0 0 0 0)
  | Motor.Decay.Slow, Motor.PwmSide.High, Motor.State.CW => some (four_writes 1 d 1 1)
  | Motor.Decay.Slow, Motor.PwmSide.High, Motor.State.CCW => some (four_writes 1 d 1 0)
  | Motor.Decay.Slow, Motor.PwmSide.High, Motor.State.Brake => some (four_writes 1 0 1 0)
  | Motor.Decay.Fast, _, Motor.State.Coast => some (four_writes 0 0 0 0)
  | Motor.Decay.Fast, _, Motor.State.CW => some (four_writes 0 1 1 (1 / 2 + d / 2))
  | Motor.Decay.Fast, _, Motor.State.CCW => some (four_writes 0 1 1 (1 / 2 - d / 2))
  | Motor.Decay.Fast, _, Motor.State.Brake => some (four_writes 0 0 1 0)
  | _, _, _ => none

/-! ## The command codec

`MotorDataConverter.cpp`, `PwmDataConverter.cpp`, `SpeedDataConverter.cpp` and
`Motor.cpp` are not among the sources; only their test is. The definitions of this
section follow the wire layout and the numeric encodings of the specification.
The duty cycle is a rational, its encoding being defined on the value; speed and
gains are IEEE-754 singles held as their 32-bit patterns, their encoding being
defined on the representation. -/

/-- Modelled from the spec: the `width` low bits of `value`, most significant
first (big-endian bit packing). -/
def to_bits : Nat → Nat → List Bool
  | 0, _ => []
  | width + 1, value => decide (value / 2 ^ width % 2 = 1) :: to_bits width value

/-- Modelled from the spec: the number whose binary digits, most significant
first, are `bits`. -/
def from_bits : List Bool → Nat
  | [] => 0
  | b :: bits => (if b then 2 ^ bits.length else 0) + from_bits bits

/-- Modelled from the spec: the bits of a byte buffer in wire order, bit 0 being
the most significant bit of the first byte. -/
def bytes_to_bits : List Nat → List Bool
  | [] => []
  | byte :: buffer => to_bits 8 byte ++ bytes_to_bits buffer

/-- Modelled from the spec: the bytes holding a bit sequence in wire order, eight
bits to a byte, most significant first; an incomplete last group is not stored. -/
def bits_to_bytes : List Bool → List Nat
  | b0 :: b1 :: b2 :: b3 :: b4 :: b5 :: b6 :: b7 :: bits =>
      from_bits [b0, b1, b2, b3, b4, b5, b6, b7] :: bits_to_bytes bits
  | _ => []

/-- Modelled from the spec: the field of `width` bits that starts at bit `start`
of the buffer, as a number. -/
def get_range_value (buffer : List Nat) (start width : Nat) : Nat :=
  from_bits (((bytes_to_bits buffer).drop start).take width)

namespace Motor

/-- Modelled from the spec: `control_mode`, enum {OpenLoopPWM, ClosedLoopSpeed};
the names are those the test uses. -/
inductive ControlSystem where
  | PWM
  | Speed
  deriving DecidableEq, Repr

end Motor

/-- Modelled from the spec: the command entity of section 3. `speed`, `Kp`, `Ki`
and `Kd` hold the 32-bit pattern of an IEEE-754 single. -/
structure Motor where
  control_system : Motor.ControlSystem
  state : Motor.State
  decay : Motor.Decay
  pwm_side : Motor.PwmSide
  duty_cycle : ℚ
  speed : Nat
  Kp : Nat
  Ki : Nat
  Kd : Nat
  deriving DecidableEq, Repr

/-- Modelled from the spec: a command entity is constructed with the safe defaults
Coast, SlowDecay, LowSideModulated and zero duty, speed and gains. The default
control mode is not stated and is taken as a parameter. -/
def Motor.fresh (control_system : Motor.ControlSystem) : Motor :=
  { control_system := control_system
    state := Motor.State.Coast
    decay := Motor.Decay.Slow
    pwm_side := Motor.PwmSide.Low
    duty_cycle := 0
    speed := 0
    Kp := 0
    Ki := 0
    Kd := 0 }

/-- Modelled from the spec: the value of the finite IEEE-754 single with the given
sign, exponent field (bias 127) and 23-bit mantissa field; an exponent field of 0
is a subnormal or a zero. -/
def float32_of_fields (sign exponent mantissa : Nat) : ℚ :=
  let magnitude : ℚ :=
    if exponent = 0 then (mantissa : ℚ) * 2 ^ (-149 : Int)
    else ((2 ^ 23 + mantissa : Nat) : ℚ) * 2 ^ ((exponent : Int) - 150)
  if sign = 1 then -magnitude else magnitude

/-- Modelled from the spec: the value of the finite IEEE-754 single with the given
32-bit pattern: 1 sign bit, 8 exponent bits, 23 mantissa bits. -/
def float32_value (bits : Nat) : ℚ :=
  float32_of_fields (bits / 2 ^ 31 % 2) (bits / 2 ^ 23 % 256) (bits % 2 ^ 23)

/-- Modelled from the spec: the exponent field of a finite single is not all ones. -/
def float32_finite (bits : Nat) : Prop :=
  bits < 2 ^ 32 ∧ bits / 2 ^ 23 % 256 ≠ 255

instance (bits : Nat) : Decidable (float32_finite bits) := by
  unfold float32_finite
  infer_instance

/-- Modelled from the spec: zero of either sign, or a normal number (exponent
field neither 0 nor all ones). -/
def float32_zero_or_normal (bits : Nat) : Prop :=
  bits < 2 ^ 32 ∧ (bits % 2 ^ 31 = 0 ∨ (bits / 2 ^ 23 % 256 ≠ 0 ∧ bits / 2 ^ 23 % 256 ≠ 255))

instance (bits : Nat) : Decidable (float32_zero_or_normal bits) := by
  unfold float32_zero_or_normal
  infer_instance

/-- Modelled from the spec: the reduced-precision encoding, the upper 16 bits of
the 32-bit single. -/
def float32_to_bfloat16 (bits : Nat) : Nat := bits / 2 ^ 16 % 2 ^ 16

/-- Modelled from the spec: decoding restores the low 16 bits as zero. -/
def bfloat16_to_float32 (encoded : Nat) : Nat := encoded % 2 ^ 16 * 2 ^ 16

/-- The singles whose 16 cleared bits weigh at most 1/127 of the whole: every
pattern whose exponent field is not 0, where the mantissa has the hidden bit 2^23
above its 23 stored bits, and with exponent field 0 (a zero or a subnormal) those
whose low 16 bits are at most 1/127 of the 23-bit mantissa field. -/
def bfloat16_keeps_precision (bits : Nat) : Prop :=
  bits / 2 ^ 23 % 256 ≠ 0 ∨ 127 * (bits % 2 ^ 16) ≤ bits % 2 ^ 23

instance (bits : Nat) : Decidable (bfloat16_keeps_precision bits) := by
  unfold bfloat16_keeps_precision
  infer_instance

/-- Modelled from the spec: unsigned linear quantisation of a fraction to 16 bits,
`encoded = round(value * 65535)`. -/
def duty_cycle_to_uint16 (value : ℚ) : Nat := (round (value * 65535)).toNat % 2 ^ 16

/-- Modelled from the spec: `decoded = encoded / 65535.0`. -/
def uint16_to_duty_cycle (encoded : Nat) : ℚ := (encoded : ℚ) / 65535

/-- Modelled from the spec: the fixed, injective 2-bit code of the run state; a
stored number that is no enumerator is sent as its two low bits. -/
def state_to_code : Motor.State → Nat
  | Motor.State.Coast => 0
  | Motor.State.CW => 1
  | Motor.State.CCW => 2
  | Motor.State.Brake => 3
  | Motor.State.Unknown raw => to_uint32 raw % 4

/-- Modelled from the spec: the run state of a 2-bit code. -/
def code_to_state (code : Nat) : Motor.State :=
  match code % 4 with
  | 0 => Motor.State.Coast
  | 1 => Motor.State.CW
  | 2 => Motor.State.CCW
  | _ => Motor.State.Brake

/-- Modelled from the spec: the OpenLoopPWM frame, header 00, 16 bits of duty
cycle, 2 bits of run state; 20 bits in a zeroed buffer of three bytes. -/
def PwmDataConverter.encode (motor : Motor) : List Nat × Nat :=
  (bits_to_bytes (to_bits 2 0 ++ to_bits 16 (duty_cycle_to_uint16 motor.duty_cycle) ++
      to_bits 2 (state_to_code motor.state) ++ List.replicate 4 false), 20)

/-- Modelled from the spec: parse the OpenLoopPWM frame field by field into the
destination. -/
def PwmDataConverter.decode (buffer : List Nat) (motor : Motor) : Motor :=
  { motor with
    control_system := Motor.ControlSystem.PWM
    duty_cycle := uint16_to_duty_cycle (get_range_value buffer 2 16)
    state := code_to_state (get_range_value buffer 18 2) }

/-- Modelled from the spec: the ClosedLoopSpeed frame, header 01, 16 bits each of
speed, Kp and Ki, 2 bits of run state; 52 bits in a zeroed buffer of seven bytes.
Kd is not sent. -/
def SpeedDataConverter.encode (motor : Motor) : List Nat × Nat :=
  (bits_to_bytes (to_bits 2 1 ++ to_bits 16 (float32_to_bfloat16 motor.speed) ++
      to_bits 16 (float32_to_bfloat16 motor.Kp) ++
      to_bits 16 (float32_to_bfloat16 motor.Ki) ++
      to_bits 2 (state_to_code motor.state) ++ List.replicate 4 false), 52)

/-- Modelled from the spec: parse the ClosedLoopSpeed frame field by field into
the destination. `gain_d` is never transmitted: the decoded entity's `gain_d` is
the default, neither the sender's nor the one the destination had. -/
def SpeedDataConverter.decode (buffer : List Nat) (motor : Motor) : Motor :=
  { motor with
    control_system := Motor.ControlSystem.Speed
    speed := bfloat16_to_float32 (get_range_value buffer 2 16)
    Kp := bfloat16_to_float32 (get_range_value buffer 18 16)
    Ki := bfloat16_to_float32 (get_range_value buffer 34 16)
    Kd := (Motor.fresh Motor.ControlSystem.Speed).Kd
    state := code_to_state (get_range_value buffer 50 2) }

/-- Modelled from the spec: `encode(command, buffer_capacity_bits, out_buffer,
out_size_bits)` writes the frame of the command's control mode and sets the size
to 20 or 52; the result is the buffer and the size. -/
def MotorDataConverter.encode (motor : Motor) (_max_buffer_size : Nat) : List Nat × Nat :=
  match motor.control_system with
  | Motor.ControlSystem.PWM => PwmDataConverter.encode motor
  | Motor.ControlSystem.Speed => SpeedDataConverter.encode motor

/-- Modelled from the spec: `decode(in_buffer, in_size_bits, out_command)` reads
the 2-bit header first; on 10 or 11 it fails and leaves the destination as it was,
otherwise it parses the frame of the mode into the destination. -/
def MotorDataConverter.decode (buffer : List Nat) (_buffer_size : Nat) (motor : Motor) :
    Bool × Motor :=
  match get_range_value buffer 0 2 with
  | 0 => (true, PwmDataConverter.decode buffer motor)
  | 1 => (true, SpeedDataConverter.decode buffer motor)
  | _ => (false, motor)

/-- The steps of the round-trip tests of `test_MotorDataConverter.cpp`: encode the
command into a buffer, then decode that buffer into the destination `out`. -/
def MotorDataConverter.round_trip (motor out : Motor) (max_buffer_size buffer_size : Nat) :
    Bool × Motor :=
  MotorDataConverter.decode (MotorDataConverter.encode motor max_buffer_size).1 buffer_size out

/-! ## The drive algorithm -/

/-- C1. Slow-decay signal table: with decay Slow and pwm_side Low or High, `run()`
appends exactly the four writes (bridge_enable, pwm_high_side, pwm_low_side,
phase) of the table row of the run state, Coast (0,0,0,0), CW (1,H,L,1),
CCW (1,H,L,0), Brake (1,0,1,0), where (H,L) is (1,d) for Low and (d,1) for High;
no diagnostic is appended and no staged field changes. -/
theorem slow_decay_signal_table (m : A3921) (hdecay : m._decay = Motor.Decay.Slow)
    (hside : m._pwm_side = Motor.PwmSide.Low ∨ m._pwm_side = Motor.PwmSide.High) :
    (m._state = Motor.State.Coast → m.run = m.emits (four_writes 0 0 0 0)) ∧
    (m._state = Motor.State.CW → m.run = m.emits (four_writes 1
        (if m._pwm_side = Motor.PwmSide.Low then 1 else m._duty_cycle)
        (if m._pwm_side = Motor.PwmSide.Low then m._duty_cycle else 1) 1)) ∧
    (m._state = Motor.State.CCW → m.run = m.emits (four_writes 1
        (if m._pwm_side = Motor.PwmSide.Low then 1 else m._duty_cycle)
        (if m._pwm_side = Motor.PwmSide.Low then m._duty_cycle else 1) 0)) ∧
    (m._state = Motor.State.Brake → m.run = m.emits (four_writes 1 0 1 0)) := by
  rcases hside with hs | hs <;>
    refine ⟨?_, ?_, ?_, ?_⟩ <;> intro hst <;>
    simp [A3921.run, A3921.run_slow_decay, A3921.run_slow_decay_state, hdecay, hs, hst,
      A3921.sr_write, A3921.pwmh_write, A3921.pwml_write, A3921.phase_write, A3921.emit,
      A3921.emits, four_writes]

/-- A slow-decay, high-side clockwise command at duty 1/4 writes (1, 1/4, 1, 1). -/
theorem slow_decay_signal_table_witness :
    (⟨1 / 4, Motor.State.CW, Motor.Decay.Slow, Motor.PwmSide.High, []⟩ : A3921).run
      = ⟨1 / 4, Motor.State.CW, Motor.Decay.Slow, Motor.PwmSide.High,
          four_writes 1 (1 / 4) 1 1⟩ := by
  have h := (slow_decay_signal_table
    ⟨1 / 4, Motor.State.CW, Motor.Decay.Slow, Motor.PwmSide.High, []⟩ rfl (Or.inr rfl)).2.1 rfl
  simpa [A3921.emits] using h

/-- C2. Fast-decay signal table: with decay Fast, whatever pwm_side holds, `run()`
appends exactly the four writes of the row of the run state, all with
bridge_enable 0: Coast (0,0,0), CW (1,1,1/2+d/2), CCW (1,1,1/2-d/2),
Brake (0,1,0) for (pwm_high_side, pwm_low_side, phase); no diagnostic is appended
and no staged field changes. -/
theorem fast_decay_signal_table (m : A3921) (hdecay : m._decay = Motor.Decay.Fast) :
    (m._state = Motor.State.Coast → m.run = m.emits (four_writes 0 0 0 0)) ∧
    (m._state = Motor.State.CW →
      m.run = m.emits (four_writes 0 1 1 (1 / 2 + m._duty_cycle / 2))) ∧
    (m._state = Motor.State.CCW →
      m.run = m.emits (four_writes 0 1 1 (1 / 2 - m._duty_cycle / 2))) ∧
    (m._state = Motor.State.Brake → m.run = m.emits (four_writes 0 0 1 0)) := by
  refine ⟨?_, ?_, ?_, ?_⟩ <;> intro hst <;>
    simp [A3921.run, A3921.run_fast_decay, hdecay, hst,
      A3921.sr_write, A3921.pwmh_write, A3921.pwml_write, A3921.phase_write, A3921.emit,
      A3921.emits, four_writes]

/-- A fast-decay counter-clockwise command at duty 1/2 writes (0, 1, 1, 1/4). -/
theorem fast_decay_signal_table_witness :
    (⟨1 / 2, Motor.State.CCW, Motor.Decay.Fast, Motor.PwmSide.Low, []⟩ : A3921).run
      = ⟨1 / 2, Motor.State.CCW, Motor.Decay.Fast, Motor.PwmSide.Low,
          four_writes 0 1 1 (1 / 4)⟩ := by
  have h := (fast_decay_signal_table
    ⟨1 / 2, Motor.State.CCW, Motor.Decay.Fast, Motor.PwmSide.Low, []⟩ rfl).2.2.1 rfl
  rw [h]
  simp only [A3921.emits, four_writes, List.nil_append]
  norm_num

/-- C3, as stated, fails: with decay Fast and run state Coast a stored pwm_side
that is none of the enumerators is never examined; `run()` performs the four
writes of the Coast row and reports nothing. -/
theorem unknown_pwm_side_fast_decay_writes :
    (⟨0, Motor.State.Coast, Motor.Decay.Fast, Motor.PwmSide.Unknown 7, []⟩ : A3921).run.trace
        = four_writes 0 0 0 0 ∧
    ¬ ∃ r, (⟨0, Motor.State.Coast, Motor.Decay.Fast, Motor.PwmSide.Unknown 7, []⟩ : A3921).run
        = (⟨0, Motor.State.Coast, Motor.Decay.Fast, Motor.PwmSide.Unknown 7, []⟩ : A3921).emits
            [Event.error r] := by
  constructor
  · rfl
  · rintro ⟨r, h⟩
    have ht := congrArg A3921.trace h
    simp [A3921.run, A3921.run_fast_decay, A3921.sr_write, A3921.pwmh_write,
      A3921.pwml_write, A3921.phase_write, A3921.emit, A3921.emits] at ht

/-- C3, amended. When the stored pwm_side is none of the enumerators and the decay
is not Fast, `run()` appends exactly one diagnostic and nothing else, whatever the
run state is; with decay Slow it is the UnknownValue report of the pwm side. -/
theorem unknown_pwm_side_reported (m : A3921) (raw : Int)
    (hside : m._pwm_side = Motor.PwmSide.Unknown raw) (hdecay : m._decay ≠ Motor.Decay.Fast) :
    (∃ r, m.run = m.emits [Event.error r]) ∧
    (m._decay = Motor.Decay.Slow →
      m.run = m.emits [Event.error ⟨Error.Kind.UnknownValue, 0, "Unknown motor pwm side (%d)",
        Error.Arg.uint32 (to_uint32 raw), "run_slow_decay"⟩]) := by
  constructor
  · cases hd : m._decay with
    | Fast => exact absurd hd hdecay
    | Slow =>
      exact ⟨⟨Error.Kind.UnknownValue, 0, "Unknown motor pwm side (%d)",
        Error.Arg.uint32 (to_uint32 raw), "run_slow_decay"⟩, by
        simp [A3921.run, A3921.run_slow_decay, hd, hside, A3921.error, A3921.emit,
          A3921.emits]⟩
    | Mixed =>
      exact ⟨⟨Error.Kind.InvalidValue, 0, "Invalid motor decay (Motor::Decay::Mixed)",
        Error.Arg.none, "run"⟩, by
        simp [A3921.run, hd, A3921.error, A3921.emit, A3921.emits]⟩
    | Unknown x =>
      exact ⟨⟨Error.Kind.UnknownValue, 0, "Unknown motor decay (%d)",
        Error.Arg.uint32 (to_uint32 x), "run"⟩, by
        simp [A3921.run, hd, A3921.error, A3921.emit, A3921.emits]⟩
  · intro hd
    simp [A3921.run, A3921.run_slow_decay, hd, hside, A3921.error, A3921.emit, A3921.emits]

/-- A slow-decay clockwise command whose pwm_side holds 7 only reports. -/
theorem unknown_pwm_side_reported_witness :
    (⟨1 / 2, Motor.State.CW, Motor.Decay.Slow, Motor.PwmSide.Unknown 7, []⟩ : A3921).run.trace
      = [Event.error ⟨Error.Kind.UnknownValue, 0, "Unknown motor pwm side (%d)",
          Error.Arg.uint32 7, "run_slow_decay"⟩] := by
  have h := (unknown_pwm_side_reported
    ⟨1 / 2, Motor.State.CW, Motor.Decay.Slow, Motor.PwmSide.Unknown 7, []⟩ 7 rfl
    (by decide)).2 rfl
  have ht := congrArg A3921.trace h
  simpa [A3921.emits, to_uint32] using ht

/-- C4. When the stored run state is none of the four enumerators and the decay
is Slow with pwm_side Low or High, or Fast, `run()` appends exactly one
UnknownValue diagnostic, the report of the run state, and no write to any
output. -/
theorem unknown_state_reported (m : A3921) (raw : Int)
    (hstate : m._state = Motor.State.Unknown raw)
    (hdecay : (m._decay = Motor.Decay.Slow ∧
        (m._pwm_side = Motor.PwmSide.Low ∨ m._pwm_side = Motor.PwmSide.High)) ∨
      m._decay = Motor.Decay.Fast) :
    ∃ func, m.run = m.emits [Event.error ⟨Error.Kind.UnknownValue, 0,
      "Unknown motor state (%d)", Error.Arg.uint32 (to_uint32 raw), func⟩] := by
  rcases hdecay with ⟨hd, hs | hs⟩ | hd
  · exact ⟨"run_slow_decay", by
      simp [A3921.run, A3921.run_slow_decay, A3921.run_slow_decay_state, hd, hs, hstate,
        A3921.error, A3921.emit, A3921.emits]⟩
  · exact ⟨"run_slow_decay", by
      simp [A3921.run, A3921.run_slow_decay, A3921.run_slow_decay_state, hd, hs, hstate,
        A3921.error, A3921.emit, A3921.emits]⟩
  · exact ⟨"run_fast_decay", by
      simp [A3921.run, A3921.run_fast_decay, hd, hstate, A3921.error, A3921.emit,
        A3921.emits]⟩

/-- A fast-decay command whose run state holds 9 appends one report and no write. -/
theorem unknown_state_reported_witness :
    ∃ func, (⟨1 / 2, Motor.State.Unknown 9, Motor.Decay.Fast, Motor.PwmSide.Low, []⟩ :
        A3921).run.trace
      = [Event.error ⟨Error.Kind.UnknownValue, 0, "Unknown motor state (%d)",
          Error.Arg.uint32 9, func⟩] := by
  obtain ⟨func, h⟩ := unknown_state_reported
    ⟨1 / 2, Motor.State.Unknown 9, Motor.Decay.Fast, Motor.PwmSide.Low, []⟩ 9 rfl (Or.inr rfl)
  have ht := congrArg A3921.trace h
  exact ⟨func, by simpa [A3921.emits, to_uint32] using ht⟩

/-- C5. With decay Mixed, `run()` appends exactly one InvalidValue diagnostic and
no write; with a decay that is none of the enumerators it appends exactly one
UnknownValue diagnostic and no write; in both cases for every duty cycle, run
state and pwm_side, and no staged field changes. -/
theorem unsupported_decay_reported (d : ℚ) (st : Motor.State) (side : Motor.PwmSide)
    (t : List Event) (raw : Int) :
    (⟨d, st, Motor.Decay.Mixed, side, t⟩ : A3921).run
      = ⟨d, st, Motor.Decay.Mixed, side, t ++ [Event.error ⟨Error.Kind.InvalidValue, 0,
          "Invalid motor decay (Motor::Decay::Mixed)", Error.Arg.none, "run"⟩]⟩ ∧
    (⟨d, st, Motor.Decay.Unknown raw, side, t⟩ : A3921).run
      = ⟨d, st, Motor.Decay.Unknown raw, side, t ++ [Event.error ⟨Error.Kind.UnknownValue, 0,
          "Unknown motor decay (%d)", Error.Arg.uint32 (to_uint32 raw), "run"⟩]⟩ := by
  constructor <;> rfl

/-- C6. Setter validation is atomic. `state()`, `decay()` and `pwm_side()` store a
supported enumerator in their own field, leave the other fields and the trace as
they were and report nothing; for any other value they leave every staged field
as it was and append exactly one diagnostic: InvalidValue for decay Mixed,
UnknownValue for a number that is none of the enumerators. -/
theorem setter_validation_atomic (m : A3921) (raw : Int) :
    (m.state Motor.State.Coast = { m with _state := Motor.State.Coast } ∧
      m.state Motor.State.CW = { m with _state := Motor.State.CW } ∧
      m.state Motor.State.CCW = { m with _state := Motor.State.CCW } ∧
      m.state Motor.State.Brake = { m with _state := Motor.State.Brake } ∧
      m.state (Motor.State.Unknown raw) = m.emits [Event.error ⟨Error.Kind.UnknownValue, 0,
        "Unknown motor state (%d)", Error.Arg.uint32 (to_uint32 raw), "state"⟩]) ∧
    (m.decay Motor.Decay.Slow = { m with _decay := Motor.Decay.Slow } ∧
      m.decay Motor.Decay.Fast = { m with _decay := Motor.Decay.Fast } ∧
      m.decay Motor.Decay.Mixed = m.emits [Event.error ⟨Error.Kind.InvalidValue, 0,
        "Invalid motor decay (Motor::Decay::Mixed)", Error.Arg.none, "decay"⟩] ∧
      m.decay (Motor.Decay.Unknown raw) = m.emits [Event.error ⟨Error.Kind.UnknownValue, 0,
        "Unknown motor decay (%d)", Error.Arg.uint32 (to_uint32 raw), "decay"⟩]) ∧
    (m.pwm_side Motor.PwmSide.Low = { m with _pwm_side := Motor.PwmSide.Low } ∧
      m.pwm_side Motor.PwmSide.High = { m with _pwm_side := Motor.PwmSide.High } ∧
      m.pwm_side (Motor.PwmSide.Unknown raw) = m.emits [Event.error
        ⟨Error.Kind.UnknownValue, 0, "Unknown motor pwm side (%d)",
          Error.Arg.uint32 (to_uint32 raw), "pwm_side"⟩]) := by
  refine ⟨⟨?_, ?_, ?_, ?_, ?_⟩, ⟨?_, ?_, ?_, ?_⟩, ⟨?_, ?_, ?_⟩⟩ <;> rfl

/-- A setter keeps the three enumerations supported: it either stores a supported
enumerator or stores nothing. -/
theorem supported_set (m : A3921) (s : Setter) (h : m.supported) : (m.set s).supported := by
  obtain ⟨h1, h2, h3⟩ := h
  cases s with
  | duty_cycle v => exact ⟨h1, h2, h3⟩
  | state type =>
    cases type <;>
      simp_all [A3921.supported, A3921.set, A3921.state, A3921.error, A3921.emit]
  | decay type =>
    cases type <;>
      simp_all [A3921.supported, A3921.set, A3921.decay, A3921.error, A3921.emit]
  | pwm_side type =>
    cases type <;>
      simp_all [A3921.supported, A3921.set, A3921.pwm_side, A3921.error, A3921.emit]

/-- Whenever the signal tables have a row for the staged values, `run()` appends
the writes of that row and nothing else. -/
theorem run_eq_signal_table (m : A3921) (ws : List Event)
    (h : signal_table m._decay m._pwm_side m._state m._duty_cycle = some ws) :
    m.run = m.emits ws := by
  obtain ⟨d, st, dec, side, t⟩ := m
  cases dec <;> cases side <;> cases st <;> simp only [signal_table] at h <;>
    first
    | (obtain rfl := Option.some.inj h
       simp [A3921.run, A3921.run_slow_decay, A3921.run_slow_decay_state,
         A3921.run_fast_decay, A3921.sr_write, A3921.pwmh_write, A3921.pwml_write,
         A3921.phase_write, A3921.emit, A3921.emits, four_writes])
    | cases h

/-- On a supported command `run()` appends four writes, one per output, and
nothing else. -/
theorem run_of_supported (m : A3921) (h : m.supported) :
    ∃ e hi lo ph, m.run = m.emits (four_writes e hi lo ph) := by
  obtain ⟨d, st, dec, side, t⟩ := m
  obtain ⟨h1, h2, h3⟩ := h
  simp only at h1 h2 h3
  rcases h2 with hd | hd <;> rcases h3 with hs | hs <;>
    rcases h1 with hst | hst | hst | hst <;> subst hd <;> subst hs <;> subst hst <;>
    exact ⟨_, _, _, _, run_eq_signal_table _ _ rfl⟩

/-- Every call of the interface keeps the three enumerations supported. -/
theorem supported_call (m : A3921) (c : Call) (h : m.supported) : (m.call c).supported := by
  cases c with
  | set s => exact supported_set m s h
  | run =>
    obtain ⟨e, hi, lo, ph, hr⟩ := run_of_supported m h
    simp only [A3921.call, hr]
    exact h

/-- Every sequence of calls keeps the three enumerations supported. -/
theorem supported_calls (cs : List Call) (m : A3921) (h : m.supported) :
    (m.calls cs).supported := by
  induction cs generalizing m with
  | nil => exact h
  | cons c cs ih => exact ih (m.call c) (supported_call m c h)

/-- C7. Reachable-state invariant: from the default staged command, with any calls
already traced, after any finite sequence of `duty_cycle()`, `state()`, `decay()`,
`pwm_side()` and `run()` calls with arbitrary arguments the stored run state is one
of the four enumerators, the stored decay is Slow or Fast and the stored pwm_side
is Low or High; the next `run()` then appends exactly four writes, on
bridge_enable, pwm_high_side, pwm_low_side and phase, and no diagnostic. -/
theorem reachable_state_invariant (t : List Event) (cs : List Call) :
    ((A3921.initial.emits t).calls cs).supported ∧
    ∃ e hi lo ph, ((A3921.initial.emits t).calls cs).run
      = ((A3921.initial.emits t).calls cs).emits (four_writes e hi lo ph) := by
  have h0 : (A3921.initial.emits t).supported := by
    simp [A3921.supported, A3921.initial, A3921.emits]
  have h := supported_calls cs _ h0
  exact ⟨h, run_of_supported _ h⟩

/-- Every entry of the signal tables consists of calls on the Output Sink only. -/
theorem sink_writes_signal_table (decay : Motor.Decay) (side : Motor.PwmSide)
    (state : Motor.State) (d : ℚ) (ws : List Event)
    (h : signal_table decay side state d = some ws) : sink_writes ws = ws := by
  cases decay <;> cases side <;> cases state <;> simp only [signal_table] at h <;>
    first
    | (obtain rfl := Option.some.inj h
       rfl)
    | cases h

/-- A setter appends no call on the Output Sink. -/
theorem sink_writes_set (m : A3921) (s : Setter) :
    sink_writes (m.set s).trace = sink_writes m.trace := by
  cases s with
  | duty_cycle v => rfl
  | state type =>
    cases type <;>
      simp [A3921.set, A3921.state, A3921.error, A3921.emit, sink_writes,
        Event.is_sink_write]
  | decay type =>
    cases type <;>
      simp [A3921.set, A3921.decay, A3921.error, A3921.emit, sink_writes,
        Event.is_sink_write]
  | pwm_side type =>
    cases type <;>
      simp [A3921.set, A3921.pwm_side, A3921.error, A3921.emit, sink_writes,
        Event.is_sink_write]

/-- After any setter call, `run()` appends the signal-table row of the fields then
staged, and the calls on the Output Sink are those made before the setter followed
by that row. -/
theorem run_after_set (m : A3921) (s : Setter) (ws : List Event)
    (h : signal_table (m.set s)._decay (m.set s)._pwm_side (m.set s)._state
      (m.set s)._duty_cycle = some ws) :
    (m.set s).run = (m.set s).emits ws ∧
    sink_writes (m.set s).run.trace = sink_writes m.trace ++ ws := by
  have hr := run_eq_signal_table (m.set s) ws h
  refine ⟨hr, ?_⟩
  rw [hr]
  simp only [A3921.emits, sink_writes, List.filter_append]
  have h1 := sink_writes_set m s
  have h2 := sink_writes_signal_table _ _ _ _ ws h
  simp only [sink_writes] at h1 h2
  rw [h1, h2]

/-- C8. Explicit recompute model: no call of `duty_cycle()`, `state()`, `decay()` or
`pwm_side()`, with any argument, adds a call on the Output Sink (a level, a duty or a
period); the value staged by the setter reaches the sink through the following
`run()`: after `duty_cycle(v)`, `state(v)`, `decay(v)` or `pwm_side(v)` that `run()`
appends exactly the writes of the signal-table row in which the argument `v` has
taken the place of the setter's own field and the other three fields are those
staged before, whenever the tables have such a row. -/
theorem explicit_recompute_model (m : A3921) (s : Setter) :
    sink_writes (m.set s).trace = sink_writes m.trace ∧
    (∀ ws, signal_table (m.set s)._decay (m.set s)._pwm_side (m.set s)._state
        (m.set s)._duty_cycle = some ws →
      (m.set s).run = (m.set s).emits ws ∧
      sink_writes (m.set s).run.trace = sink_writes m.trace ++ ws) ∧
    (∀ v ws, signal_table m._decay m._pwm_side m._state v = some ws →
      (m.duty_cycle v).run = (m.duty_cycle v).emits ws ∧
      sink_writes (m.duty_cycle v).run.trace = sink_writes m.trace ++ ws) ∧
    (∀ v ws, signal_table m._decay m._pwm_side v m._duty_cycle = some ws →
      (m.state v).run = (m.state v).emits ws ∧
      sink_writes (m.state v).run.trace = sink_writes m.trace ++ ws) ∧
    (∀ v ws, signal_table v m._pwm_side m._state m._duty_cycle = some ws →
      (m.decay v).run = (m.decay v).emits ws ∧
      sink_writes (m.decay v).run.trace = sink_writes m.trace ++ ws) ∧
    (∀ v ws, signal_table m._decay v m._state m._duty_cycle = some ws →
      (m.pwm_side v).run = (m.pwm_side v).emits ws ∧
      sink_writes (m.pwm_side v).run.trace = sink_writes m.trace ++ ws) := by
  refine ⟨sink_writes_set m s, run_after_set m s, ?_, ?_, ?_, ?_⟩
  · intro v ws h
    exact run_after_set m (Setter.duty_cycle v) ws h
  · intro v ws h
    obtain ⟨d, st, dec, side, t⟩ := m
    cases v with
    | Coast => exact run_after_set ⟨d, st, dec, side, t⟩ (Setter.state Motor.State.Coast) ws h
    | CW => exact run_after_set ⟨d, st, dec, side, t⟩ (Setter.state Motor.State.CW) ws h
    | CCW => exact run_after_set ⟨d, st, dec, side, t⟩ (Setter.state Motor.State.CCW) ws h
    | Brake => exact run_after_set ⟨d, st, dec, side, t⟩ (Setter.state Motor.State.Brake) ws h
    | Unknown raw => cases dec <;> cases side <;> simp [signal_table] at h
  · intro v ws h
    obtain ⟨d, st, dec, side, t⟩ := m
    cases v with
    | Slow => exact run_after_set ⟨d, st, dec, side, t⟩ (Setter.decay Motor.Decay.Slow) ws h
    | Fast => exact run_after_set ⟨d, st, dec, side, t⟩ (Setter.decay Motor.Decay.Fast) ws h
    | Mixed => simp [signal_table] at h
    | Unknown raw => simp [signal_table] at h
  · intro v ws h
    obtain ⟨d, st, dec, side, t⟩ := m
    cases v with
    | Low => exact run_after_set ⟨d, st, dec, side, t⟩ (Setter.pwm_side Motor.PwmSide.Low) ws h
    | High => exact run_after_set ⟨d, st, dec, side, t⟩ (Setter.pwm_side Motor.PwmSide.High) ws h
    | Unknown raw =>
      cases dec <;> cases st <;>
        first
        | exact run_after_set ⟨d, _, _, side, t⟩ (Setter.pwm_side (Motor.PwmSide.Unknown raw)) ws h
        | (exfalso; simp [signal_table] at h)

/-- On a slow-decay, low-side clockwise command no setter writes; the following
`run()` writes the row of the argument: duty 1/4 gives (1, 1, 1/4, 1), state CCW
gives (1, 1, 0, 0), decay Fast gives (0, 1, 1, 1/2 + 0/2) and pwm_side High, at
duty 1/4, gives (1, 1/4, 1, 1). -/
theorem explicit_recompute_model_witness :
    sink_writes ((⟨0, Motor.State.CW, Motor.Decay.Slow, Motor.PwmSide.Low, []⟩ :
      A3921).duty_cycle (1 / 4)).trace = [] ∧
    sink_writes ((⟨0, Motor.State.CW, Motor.Decay.Slow, Motor.PwmSide.Low, []⟩ :
      A3921).duty_cycle (1 / 4)).run.trace = four_writes 1 1 (1 / 4) 1 ∧
    sink_writes ((⟨0, Motor.State.CW, Motor.Decay.Slow, Motor.PwmSide.Low, []⟩ :
      A3921).state Motor.State.CCW).run.trace = four_writes 1 1 0 0 ∧
    sink_writes ((⟨0, Motor.State.CW, Motor.Decay.Slow, Motor.PwmSide.Low, []⟩ :
      A3921).decay Motor.Decay.Fast).run.trace = four_writes 0 1 1 (1 / 2 + 0 / 2) ∧
    sink_writes ((⟨1 / 4, Motor.State.CW, Motor.Decay.Slow, Motor.PwmSide.Low, []⟩ :
      A3921).pwm_side Motor.PwmSide.High).run.trace = four_writes 1 (1 / 4) 1 1 :=
  ⟨(explicit_recompute_model ⟨0, Motor.State.CW, Motor.Decay.Slow, Motor.PwmSide.Low, []⟩
      (Setter.duty_cycle (1 / 4))).1,
    ((explicit_recompute_model ⟨0, Motor.State.CW, Motor.Decay.Slow, Motor.PwmSide.Low, []⟩
      (Setter.duty_cycle 0)).2.2.1 (1 / 4) _ rfl).2,
    ((explicit_recompute_model ⟨0, Motor.State.CW, Motor.Decay.Slow, Motor.PwmSide.Low, []⟩
      (Setter.duty_cycle 0)).2.2.2.1 Motor.State.CCW _ rfl).2,
    ((explicit_recompute_model ⟨0, Motor.State.CW, Motor.Decay.Slow, Motor.PwmSide.Low, []⟩
      (Setter.duty_cycle 0)).2.2.2.2.1 Motor.Decay.Fast _ rfl).2,
    ((explicit_recompute_model ⟨1 / 4, Motor.State.CW, Motor.Decay.Slow, Motor.PwmSide.Low, []⟩
      (Setter.duty_cycle 0)).2.2.2.2.2 Motor.PwmSide.High _ rfl).2⟩

/-! ## The command codec: bit packing -/

/-- A field of `width` bits has `width` bits. -/
theorem length_to_bits (width value : Nat) : (to_bits width value).length = width := by
  induction width with
  | zero => rfl
  | succ w ih => simp [to_bits, ih]

/-- The number of a bit sequence fits its length. -/
theorem from_bits_lt (bits : List Bool) : from_bits bits < 2 ^ bits.length := by
  induction bits with
  | nil => simp [from_bits]
  | cons b bits ih =>
    simp only [from_bits, List.length_cons, pow_succ]
    split <;> omega

/-- Only the `width` low bits of a value are packed. -/
theorem to_bits_add_mul (width value k : Nat) :
    to_bits width (value + k * 2 ^ width) = to_bits width value := by
  induction width generalizing k with
  | zero => rfl
  | succ w ih =>
    have e : value + k * 2 ^ (w + 1) = value + (2 * k) * 2 ^ w := by ring
    simp only [to_bits]
    rw [e, ih (2 * k), Nat.add_mul_div_right _ _ (Nat.two_pow_pos w), Nat.add_mul_mod_self_left]

/-- Packing the number of a bit sequence at its own length gives the sequence back. -/
theorem to_bits_from_bits (bits : List Bool) : to_bits bits.length (from_bits bits) = bits := by
  induction bits with
  | nil => rfl
  | cons b bits ih =>
    have hlt := from_bits_lt bits
    cases b with
    | false =>
      simp only [from_bits, List.length_cons, to_bits, Bool.false_eq_true, if_false, zero_add, ih]
      rw [Nat.div_eq_of_lt hlt]
      simp
    | true =>
      simp only [from_bits, List.length_cons, to_bits, if_true]
      have e : 2 ^ bits.length + from_bits bits = from_bits bits + 1 * 2 ^ bits.length := by ring
      rw [e, to_bits_add_mul, ih, Nat.add_mul_div_right _ _ (Nat.two_pow_pos _),
        Nat.div_eq_of_lt hlt]
      simp

/-- Unpacking a packed field gives the value modulo the width. -/
theorem from_bits_to_bits (width value : Nat) :
    from_bits (to_bits width value) = value % 2 ^ width := by
  induction width with
  | zero => simp [to_bits, from_bits, Nat.mod_one]
  | succ w ih =>
    simp only [to_bits, from_bits, length_to_bits, ih]
    rw [Nat.mod_pow_succ]
    rcases Nat.mod_two_eq_zero_or_one (value / 2 ^ w) with h | h <;> simp [h, Nat.add_comm]

/-- The bits of the bytes holding a whole number of groups of eight are the bits
stored. -/
theorem bytes_to_bits_bits_to_bytes (n : Nat) (bits : List Bool) (h : bits.length = 8 * n) :
    bytes_to_bits (bits_to_bytes bits) = bits := by
  induction n generalizing bits with
  | zero =>
    have : bits = [] := List.eq_nil_of_length_eq_zero (by simpa using h)
    subst this
    rfl
  | succ n ih =>
    match bits, h with
    | b0 :: b1 :: b2 :: b3 :: b4 :: b5 :: b6 :: b7 :: rest, h =>
      have hr : rest.length = 8 * n := by
        simp only [List.length_cons] at h
        omega
      have hb := to_bits_from_bits [b0, b1, b2, b3, b4, b5, b6, b7]
      simp only [List.length_cons, List.length_nil] at hb
      simp only [bits_to_bytes, bytes_to_bits, ih rest hr]
      rw [hb]
      rfl

/-- The field that follows `a` in a frame is read back whole. -/
theorem take_drop_field (a b c : List Bool) (start width : Nat) (ha : a.length = start)
    (hb : b.length = width) : ((a ++ b ++ c).drop start).take width = b := by
  subst ha hb
  simp

/-- The 2-bit code of a run state names that state again. -/
theorem code_to_state_to_code (state : Motor.State)
    (h : state = Motor.State.Coast ∨ state = Motor.State.CW ∨ state = Motor.State.CCW ∨
      state = Motor.State.Brake) :
    code_to_state (state_to_code state % 2 ^ 2) = state := by
  rcases h with h | h | h | h <;> subst h <;> rfl

/-- A fraction of [0,1] is quantised to a 16-bit number without wrapping. -/
theorem duty_cycle_to_uint16_eq (value : ℚ) (h0 : 0 ≤ value) (h1 : value ≤ 1) :
    ((duty_cycle_to_uint16 value : Nat) : ℚ) = ((round (value * 65535) : Int) : ℚ) := by
  have hr := abs_le.mp (abs_sub_round (value * 65535))
  have hlo : (0 : Int) ≤ round (value * 65535) := by
    by_contra hneg
    have h' : round (value * 65535) ≤ -1 := by omega
    have h'' : ((round (value * 65535) : Int) : ℚ) ≤ -1 := by exact_mod_cast h'
    nlinarith [hr.1, hr.2]
  have hhi : round (value * 65535) ≤ (65535 : Int) := by
    by_contra hgt
    have h' : (65536 : Int) ≤ round (value * 65535) := by omega
    have h'' : (65536 : ℚ) ≤ ((round (value * 65535) : Int) : ℚ) := by exact_mod_cast h'
    nlinarith [hr.1, hr.2]
  have hn : ((round (value * 65535)).toNat : Int) = round (value * 65535) := Int.toNat_of_nonneg hlo
  have hlt : (round (value * 65535)).toNat < 65536 := by omega
  unfold duty_cycle_to_uint16
  rw [Nat.mod_eq_of_lt (by simpa using hlt)]
  exact_mod_cast hn

/-- The bits of an encoded OpenLoopPWM buffer are the frame followed by four zero
bits. -/
theorem bytes_to_bits_pwm_encode (motor : Motor) :
    bytes_to_bits (PwmDataConverter.encode motor).1
      = to_bits 2 0 ++ to_bits 16 (duty_cycle_to_uint16 motor.duty_cycle) ++
          to_bits 2 (state_to_code motor.state) ++ List.replicate 4 false :=
  bytes_to_bits_bits_to_bytes 3 _ (by simp [length_to_bits])

/-- C9. Round trip of an OpenLoopPWM command, on the codec as the specification
describes it: for a duty cycle in [0,1] and one of the four run states, `encode`
sets the size to 20 bits; `decode` of the buffer into any destination succeeds,
sets the control mode to PWM, restores the run state exactly and yields the duty
cycle round(d * 65535) / 65535, which is within 1/65535 of the original. -/
theorem pwm_round_trip (motor out : Motor) (max_buffer_size buffer_size : Nat)
    (hmode : motor.control_system = Motor.ControlSystem.PWM)
    (h0 : 0 ≤ motor.duty_cycle) (h1 : motor.duty_cycle ≤ 1)
    (hstate : motor.state = Motor.State.Coast ∨ motor.state = Motor.State.CW ∨
      motor.state = Motor.State.CCW ∨ motor.state = Motor.State.Brake) :
    (MotorDataConverter.encode motor max_buffer_size).2 = 20 ∧
    (MotorDataConverter.round_trip motor out max_buffer_size buffer_size).1 = true ∧
    (MotorDataConverter.round_trip motor out max_buffer_size buffer_size).2.control_system
      = Motor.ControlSystem.PWM ∧
    (MotorDataConverter.round_trip motor out max_buffer_size buffer_size).2.state
      = motor.state ∧
    (MotorDataConverter.round_trip motor out max_buffer_size buffer_size).2.duty_cycle
      = ((round (motor.duty_cycle * 65535) : Int) : ℚ) / 65535 ∧
    |motor.duty_cycle -
      (MotorDataConverter.round_trip motor out max_buffer_size buffer_size).2.duty_cycle|
        ≤ 1 / 65535 := by
  unfold MotorDataConverter.round_trip
  have henc : MotorDataConverter.encode motor max_buffer_size = PwmDataConverter.encode motor := by
    simp [MotorDataConverter.encode, hmode]
  have hbits := bytes_to_bits_pwm_encode motor
  have hheader : get_range_value (PwmDataConverter.encode motor).1 0 2 = 0 := by
    unfold get_range_value
    rw [hbits]
    have := take_drop_field [] (to_bits 2 0)
      (to_bits 16 (duty_cycle_to_uint16 motor.duty_cycle) ++
        to_bits 2 (state_to_code motor.state) ++ List.replicate 4 false) 0 2 rfl rfl
    simp only [List.nil_append, List.append_assoc] at this ⊢
    rw [this]
    rfl
  have hduty : get_range_value (PwmDataConverter.encode motor).1 2 16
      = duty_cycle_to_uint16 motor.duty_cycle := by
    unfold get_range_value
    rw [hbits]
    have := take_drop_field (to_bits 2 0) (to_bits 16 (duty_cycle_to_uint16 motor.duty_cycle))
      (to_bits 2 (state_to_code motor.state) ++ List.replicate 4 false) 2 16 rfl
      (length_to_bits _ _)
    simp only [List.append_assoc] at this ⊢
    rw [this, from_bits_to_bits]
    exact Nat.mod_eq_of_lt (Nat.mod_lt _ (by norm_num))
  have hst : get_range_value (PwmDataConverter.encode motor).1 18 2
      = state_to_code motor.state % 2 ^ 2 := by
    unfold get_range_value
    rw [hbits]
    have := take_drop_field (to_bits 2 0 ++ to_bits 16 (duty_cycle_to_uint16 motor.duty_cycle))
      (to_bits 2 (state_to_code motor.state)) (List.replicate 4 false) 18 2
      (by simp [length_to_bits]) (length_to_bits _ _)
    rw [this, from_bits_to_bits]
  have hdec : MotorDataConverter.decode (PwmDataConverter.encode motor).1 buffer_size out
      = (true, PwmDataConverter.decode (PwmDataConverter.encode motor).1 out) := by
    simp [MotorDataConverter.decode, hheader]
  have hq := duty_cycle_to_uint16_eq motor.duty_cycle h0 h1
  have hvalue : (PwmDataConverter.decode (PwmDataConverter.encode motor).1 out).duty_cycle
      = ((round (motor.duty_cycle * 65535) : Int) : ℚ) / 65535 := by
    simp only [PwmDataConverter.decode, hduty, uint16_to_duty_cycle, hq]
  rw [henc, hdec]
  refine ⟨rfl, rfl, rfl, ?_, hvalue, ?_⟩
  · simp only [PwmDataConverter.decode, hst]
    exact code_to_state_to_code _ hstate
  · simp only [hvalue]
    have hr := abs_le.mp (abs_sub_round (motor.duty_cycle * 65535))
    rw [abs_le]
    constructor <;> linarith [hr.1, hr.2]

/-- A half-second duty cycle with run state CCW survives the round trip. -/
theorem pwm_round_trip_witness :
    (MotorDataConverter.round_trip
      ⟨Motor.ControlSystem.PWM, Motor.State.CCW, Motor.Decay.Slow, Motor.PwmSide.Low,
        1 / 2, 0, 0, 0, 0⟩ (Motor.fresh Motor.ControlSystem.Speed) 24 24).2.state
      = Motor.State.CCW ∧
    |(1 / 2 : ℚ) - (MotorDataConverter.round_trip
      ⟨Motor.ControlSystem.PWM, Motor.State.CCW, Motor.Decay.Slow, Motor.PwmSide.Low,
        1 / 2, 0, 0, 0, 0⟩ (Motor.fresh Motor.ControlSystem.Speed) 24 24).2.duty_cycle|
      ≤ 1 / 65535 := by
  have h := pwm_round_trip
    ⟨Motor.ControlSystem.PWM, Motor.State.CCW, Motor.Decay.Slow, Motor.PwmSide.Low,
      1 / 2, 0, 0, 0, 0⟩ (Motor.fresh Motor.ControlSystem.Speed) 24 24 rfl
    (by norm_num) (by norm_num) (Or.inr (Or.inr (Or.inl rfl)))
  exact ⟨h.2.2.2.1, h.2.2.2.2.2⟩

/-! ## The command codec: reduced-precision singles -/

/-- Keeping the upper 16 bits of a single keeps its sign and exponent fields and
clears the low 16 bits of its mantissa. -/
theorem bfloat16_fields (bits : Nat) (h : bits < 2 ^ 32) :
    bfloat16_to_float32 (float32_to_bfloat16 bits) / 2 ^ 31 % 2 = bits / 2 ^ 31 % 2 ∧
    bfloat16_to_float32 (float32_to_bfloat16 bits) / 2 ^ 23 % 256 = bits / 2 ^ 23 % 256 ∧
    bfloat16_to_float32 (float32_to_bfloat16 bits) % 2 ^ 23 + bits % 2 ^ 16 = bits % 2 ^ 23 := by
  unfold bfloat16_to_float32 float32_to_bfloat16
  norm_num at h ⊢
  omega

/-- Clearing low mantissa bits worth less than 2^16 of a non-negative normal
single changes its value by at most 1/127 of the value. -/
theorem float32_of_fields_error (sign exponent mantissa low : Nat) (hexp : exponent ≠ 0)
    (hle : low ≤ mantissa) (hlow : low < 2 ^ 16)
    (hv : 0 ≤ float32_of_fields sign exponent mantissa) :
    |float32_of_fields sign exponent mantissa - float32_of_fields sign exponent (mantissa - low)|
      ≤ float32_of_fields sign exponent mantissa / 127 := by
  have hP : (0 : ℚ) < 2 ^ ((exponent : Int) - 150) := zpow_pos (by norm_num) _
  have hm : (0 : ℚ) ≤ (mantissa : ℚ) := Nat.cast_nonneg _
  have hl : (0 : ℚ) ≤ (low : ℚ) := Nat.cast_nonneg _
  have hl2 : (low : ℚ) ≤ 65535 := by
    have : low ≤ 65535 := by norm_num at hlow; omega
    exact_mod_cast this
  have hsub : ((mantissa - low : Nat) : ℚ) = (mantissa : ℚ) - (low : ℚ) := Nat.cast_sub hle
  simp only [float32_of_fields, if_neg hexp, Nat.cast_add, Nat.cast_pow, Nat.cast_ofNat, hsub]
    at hv ⊢
  by_cases hsign : sign = 1
  · simp only [if_pos hsign] at hv
    nlinarith [mul_pos (show (0 : ℚ) < 2 ^ 23 by norm_num) hP, mul_nonneg hm hP.le]
  · simp only [if_neg hsign]
    have e : (2 ^ 23 + (mantissa : ℚ)) * 2 ^ ((exponent : Int) - 150) -
        (2 ^ 23 + ((mantissa : ℚ) - (low : ℚ))) * 2 ^ ((exponent : Int) - 150)
          = (low : ℚ) * 2 ^ ((exponent : Int) - 150) := by ring
    rw [e, abs_of_nonneg (mul_nonneg hl hP.le)]
    nlinarith [mul_nonneg hm hP.le, mul_nonneg (sub_nonneg.mpr hl2) hP.le]

/-- Truncating a non-negative single that is zero or normal to its upper 16 bits
changes its value by at most 1/127 of the value. -/
theorem bfloat16_error (bits : Nat) (h : float32_zero_or_normal bits)
    (hv : 0 ≤ float32_value bits) :
    |float32_value bits - float32_value (bfloat16_to_float32 (float32_to_bfloat16 bits))|
      ≤ float32_value bits / 127 := by
  obtain ⟨hlt, hcase⟩ := h
  obtain ⟨hs, he, hm⟩ := bfloat16_fields bits hlt
  have hlo : bits % 2 ^ 16 < 2 ^ 16 := Nat.mod_lt _ (by norm_num)
  have hm' : bfloat16_to_float32 (float32_to_bfloat16 bits) % 2 ^ 23
      = bits % 2 ^ 23 - bits % 2 ^ 16 := by omega
  unfold float32_value at hv ⊢
  rw [hs, he, hm']
  rcases hcase with hz | ⟨hn, -⟩
  · have e0 : bits / 2 ^ 23 % 256 = 0 := by norm_num at hz ⊢; omega
    have m0 : bits % 2 ^ 23 = 0 := by norm_num at hz ⊢; omega
    rw [e0, m0]
    simp [float32_of_fields]
  · exact float32_of_fields_error _ _ _ _ hn (by omega) hlo hv

/-- The bits of an encoded ClosedLoopSpeed buffer are the frame followed by four
zero bits. -/
theorem bytes_to_bits_speed_encode (motor : Motor) :
    bytes_to_bits (SpeedDataConverter.encode motor).1
      = to_bits 2 1 ++ to_bits 16 (float32_to_bfloat16 motor.speed) ++
          to_bits 16 (float32_to_bfloat16 motor.Kp) ++
          to_bits 16 (float32_to_bfloat16 motor.Ki) ++
          to_bits 2 (state_to_code motor.state) ++ List.replicate 4 false :=
  bytes_to_bits_bits_to_bytes 7 _ (by simp [length_to_bits])

/-- A 16-bit field read back from the wire restores the single with its low 16
bits cleared. -/
theorem bfloat16_to_float32_mod (bits : Nat) :
    bfloat16_to_float32 (float32_to_bfloat16 bits % 2 ^ 16)
      = bfloat16_to_float32 (float32_to_bfloat16 bits) := by
  unfold bfloat16_to_float32
  rw [Nat.mod_mod]

/-- What `decode` makes of an encoded ClosedLoopSpeed buffer: it succeeds, and every
transmitted field is the sender's with the low 16 bits of each single cleared; Kd
is the default and the other fields of the destination stay. -/
theorem speed_decode_encode (motor out : Motor) (buffer_size : Nat) :
    MotorDataConverter.decode (SpeedDataConverter.encode motor).1 buffer_size out
      = (true, { out with
          control_system := Motor.ControlSystem.Speed
          speed := bfloat16_to_float32 (float32_to_bfloat16 motor.speed)
          Kp := bfloat16_to_float32 (float32_to_bfloat16 motor.Kp)
          Ki := bfloat16_to_float32 (float32_to_bfloat16 motor.Ki)
          Kd := (Motor.fresh Motor.ControlSystem.Speed).Kd
          state := code_to_state (state_to_code motor.state % 2 ^ 2) }) := by
  have hbits := bytes_to_bits_speed_encode motor
  have hheader : get_range_value (SpeedDataConverter.encode motor).1 0 2 = 1 := by
    unfold get_range_value
    rw [hbits]
    have := take_drop_field [] (to_bits 2 1)
      (to_bits 16 (float32_to_bfloat16 motor.speed) ++
        to_bits 16 (float32_to_bfloat16 motor.Kp) ++
        to_bits 16 (float32_to_bfloat16 motor.Ki) ++
        to_bits 2 (state_to_code motor.state) ++ List.replicate 4 false) 0 2 rfl rfl
    simp only [List.nil_append, List.append_assoc] at this ⊢
    rw [this]
    rfl
  have hspeed : get_range_value (SpeedDataConverter.encode motor).1 2 16
      = float32_to_bfloat16 motor.speed % 2 ^ 16 := by
    unfold get_range_value
    rw [hbits]
    have := take_drop_field (to_bits 2 1) (to_bits 16 (float32_to_bfloat16 motor.speed))
      (to_bits 16 (float32_to_bfloat16 motor.Kp) ++
        to_bits 16 (float32_to_bfloat16 motor.Ki) ++
        to_bits 2 (state_to_code motor.state) ++ List.replicate 4 false) 2 16 rfl
      (length_to_bits _ _)
    simp only [List.append_assoc] at this ⊢
    rw [this, from_bits_to_bits]
  have hKp : get_range_value (SpeedDataConverter.encode motor).1 18 16
      = float32_to_bfloat16 motor.Kp % 2 ^ 16 := by
    unfold get_range_value
    rw [hbits]
    have := take_drop_field (to_bits 2 1 ++ to_bits 16 (float32_to_bfloat16 motor.speed))
      (to_bits 16 (float32_to_bfloat16 motor.Kp))
      (to_bits 16 (float32_to_bfloat16 motor.Ki) ++
        to_bits 2 (state_to_code motor.state) ++ List.replicate 4 false) 18 16
      (by simp [length_to_bits]) (length_to_bits _ _)
    simp only [List.append_assoc] at this ⊢
    rw [this, from_bits_to_bits]
  have hKi : get_range_value (SpeedDataConverter.encode motor).1 34 16
      = float32_to_bfloat16 motor.Ki % 2 ^ 16 := by
    unfold get_range_value
    rw [hbits]
    have := take_drop_field (to_bits 2 1 ++ to_bits 16 (float32_to_bfloat16 motor.speed) ++
        to_bits 16 (float32_to_bfloat16 motor.Kp))
      (to_bits 16 (float32_to_bfloat16 motor.Ki))
      (to_bits 2 (state_to_code motor.state) ++ List.replicate 4 false) 34 16
      (by simp [length_to_bits]) (length_to_bits _ _)
    simp only [List.append_assoc] at this ⊢
    rw [this, from_bits_to_bits]
  have hst : get_range_value (SpeedDataConverter.encode motor).1 50 2
      = state_to_code motor.state % 2 ^ 2 := by
    unfold get_range_value
    rw [hbits]
    have := take_drop_field (to_bits 2 1 ++ to_bits 16 (float32_to_bfloat16 motor.speed) ++
        to_bits 16 (float32_to_bfloat16 motor.Kp) ++
        to_bits 16 (float32_to_bfloat16 motor.Ki))
      (to_bits 2 (state_to_code motor.state)) (List.replicate 4 false) 50 2
      (by simp [length_to_bits]) (length_to_bits _ _)
    rw [this, from_bits_to_bits]
  simp only [MotorDataConverter.decode, hheader, SpeedDataConverter.decode, hspeed, hKp, hKi,
    hst, bfloat16_to_float32_mod]

/-- C10, as stated, fails at a subnormal: the smallest positive single, pattern
1 and value 2^(-149), lies in [0,1]; its upper 16 bits are all zero, so the decoded
speed is 0 and the error is the whole value, more than 1/127 of it. -/
theorem speed_round_trip_subnormal :
    float32_finite 1 ∧ 0 ≤ float32_value 1 ∧ float32_value 1 ≤ 1 ∧
    (MotorDataConverter.round_trip
      ⟨Motor.ControlSystem.Speed, Motor.State.Coast, Motor.Decay.Slow, Motor.PwmSide.Low,
        0, 1, 0, 0, 0⟩ (Motor.fresh Motor.ControlSystem.PWM) 56 56).2.speed = 0 ∧
    ¬ |float32_value 1 - float32_value (MotorDataConverter.round_trip
      ⟨Motor.ControlSystem.Speed, Motor.State.Coast, Motor.Decay.Slow, Motor.PwmSide.Low,
        0, 1, 0, 0, 0⟩ (Motor.fresh Motor.ControlSystem.PWM) 56 56).2.speed|
      ≤ float32_value 1 / 127 := by
  have hdec : (MotorDataConverter.round_trip
      ⟨Motor.ControlSystem.Speed, Motor.State.Coast, Motor.Decay.Slow, Motor.PwmSide.Low,
        0, 1, 0, 0, 0⟩ (Motor.fresh Motor.ControlSystem.PWM) 56 56).2.speed = 0 := by
    decide
  have h1 : float32_value 1 = 2 ^ (-149 : Int) := by
    simp [float32_value, float32_of_fields]
  have h0 : float32_value 0 = 0 := by
    simp [float32_value, float32_of_fields]
  have hP : (0 : ℚ) < 2 ^ (-149 : Int) := zpow_pos (by norm_num) _
  have hP1 : (2 : ℚ) ^ (-149 : Int) ≤ 1 := zpow_le_one_of_nonpos₀ (by norm_num) (by norm_num)
  refine ⟨by decide, ?_, ?_, hdec, ?_⟩
  · rw [h1]; exact hP.le
  · rw [h1]; exact hP1
  · rw [hdec, h1, h0, sub_zero, abs_of_pos hP]
    intro h
    linarith

/-- A single whose sign bit is clear has a non-negative value. -/
theorem float32_value_nonneg (bits : Nat) (h : bits / 2 ^ 31 % 2 = 0) :
    0 ≤ float32_value bits := by
  unfold float32_value float32_of_fields
  rw [h]
  simp only [Nat.zero_ne_one, if_false]
  split
  · exact mul_nonneg (Nat.cast_nonneg _) (zpow_pos (by norm_num) _).le
  · exact mul_nonneg (Nat.cast_nonneg _) (zpow_pos (by norm_num) _).le

/-- Clearing low mantissa bits of a non-negative single with exponent field 0 (a
zero or a subnormal) keeps the value within 1/127 exactly when the cleared bits
are at most 1/127 of the mantissa field. -/
theorem float32_of_fields_subnormal_error (sign mantissa low : Nat) (hle : low ≤ mantissa)
    (hv : 0 ≤ float32_of_fields sign 0 mantissa) :
    |float32_of_fields sign 0 mantissa - float32_of_fields sign 0 (mantissa - low)|
        ≤ float32_of_fields sign 0 mantissa / 127
      ↔ 127 * low ≤ mantissa := by
  have hP : (0 : ℚ) < 2 ^ (-149 : Int) := zpow_pos (by norm_num) _
  have hm : (0 : ℚ) ≤ (mantissa : ℚ) := Nat.cast_nonneg _
  have hl : (0 : ℚ) ≤ (low : ℚ) := Nat.cast_nonneg _
  have hlm : (low : ℚ) ≤ (mantissa : ℚ) := by exact_mod_cast hle
  have hsub : ((mantissa - low : Nat) : ℚ) = (mantissa : ℚ) - (low : ℚ) := Nat.cast_sub hle
  have hcast : (127 * low ≤ mantissa) ↔ (127 * (low : ℚ) ≤ (mantissa : ℚ)) := by
    constructor
    · intro h; exact_mod_cast h
    · intro h; exact_mod_cast h
  simp only [float32_of_fields, if_true, hsub] at hv ⊢
  rw [hcast]
  generalize (2 : ℚ) ^ (-149 : Int) = P at hP hv ⊢
  by_cases hsign : sign = 1
  · simp only [if_pos hsign] at hv ⊢
    have hm0 : (mantissa : ℚ) = 0 := by
      have h' : (mantissa : ℚ) ≤ 0 := by
        by_contra hc
        push_neg at hc
        have := mul_pos hc hP
        linarith
      linarith
    have hl0 : (low : ℚ) = 0 := by linarith
    rw [hm0, hl0]
    simp
  · simp only [if_neg hsign] at hv ⊢
    have e : (mantissa : ℚ) * P - ((mantissa : ℚ) - (low : ℚ)) * P = (low : ℚ) * P := by ring
    rw [e, abs_of_nonneg (mul_nonneg hl hP.le)]
    constructor
    · intro h
      have h' : 127 * (low : ℚ) * P ≤ (mantissa : ℚ) * P := by linarith
      exact le_of_mul_le_mul_right h' hP
    · intro h
      have h' : 127 * (low : ℚ) * P ≤ (mantissa : ℚ) * P :=
        mul_le_mul_of_nonneg_right h hP.le
      linarith

/-- Truncating a non-negative single to its upper 16 bits changes its value by at
most 1/127 of the value exactly when it is not a subnormal whose low 16 bits are
more than 1/127 of its mantissa field. -/
theorem bfloat16_error_iff (bits : Nat) (hlt : bits < 2 ^ 32) (hv : 0 ≤ float32_value bits) :
    |float32_value bits - float32_value (bfloat16_to_float32 (float32_to_bfloat16 bits))|
        ≤ float32_value bits / 127
      ↔ bfloat16_keeps_precision bits := by
  obtain ⟨hs, he, hm⟩ := bfloat16_fields bits hlt
  have hlo : bits % 2 ^ 16 < 2 ^ 16 := Nat.mod_lt _ (by norm_num)
  have hm' : bfloat16_to_float32 (float32_to_bfloat16 bits) % 2 ^ 23
      = bits % 2 ^ 23 - bits % 2 ^ 16 := by omega
  unfold float32_value at hv ⊢
  unfold bfloat16_keeps_precision
  rw [hs, he, hm']
  by_cases hexp : bits / 2 ^ 23 % 256 = 0
  · rw [hexp] at hv ⊢
    rw [float32_of_fields_subnormal_error _ _ _ (by omega) hv]
    simp
  · constructor
    · intro _
      exact Or.inl hexp
    · intro _
      exact float32_of_fields_error _ _ _ _ hexp (by omega) hlo hv

/-- Zero of either sign and every normal single keep the precision: the singles
left out are subnormals only. -/
theorem bfloat16_keeps_precision_of_zero_or_normal (bits : Nat)
    (h : float32_zero_or_normal bits) : bfloat16_keeps_precision bits := by
  obtain ⟨-, hz | ⟨hn, -⟩⟩ := h
  · right
    norm_num at hz ⊢
    omega
  · exact Or.inl hn

/-- C10, amended. Round trip of a ClosedLoopSpeed command, on the codec as the
specification describes it: for one of the four run states and speed, Kp and Ki
each a non-negative single (so every value of [0,1]), `encode` sets the size to 52
bits; `decode` of the buffer into any destination succeeds, sets the control mode
to Speed, restores the run state exactly and yields for each of speed, Kp and Ki
the single with its low 16 bits cleared, whose value is within 1/127 of the
original value if and only if the single is not a subnormal whose low 16 bits are
more than 1/127 of its mantissa field (so for zero, for every normal single and
for the subnormals with small enough low bits); Kd is not transmitted, the decoded
Kd is the default, whatever the sender's Kd and the destination's were. -/
theorem speed_round_trip (motor out : Motor) (max_buffer_size buffer_size : Nat)
    (hmode : motor.control_system = Motor.ControlSystem.Speed)
    (hstate : motor.state = Motor.State.Coast ∨ motor.state = Motor.State.CW ∨
      motor.state = Motor.State.CCW ∨ motor.state = Motor.State.Brake)
    (hspeed : motor.speed < 2 ^ 32) (hspeed0 : 0 ≤ float32_value motor.speed)
    (hKp : motor.Kp < 2 ^ 32) (hKp0 : 0 ≤ float32_value motor.Kp)
    (hKi : motor.Ki < 2 ^ 32) (hKi0 : 0 ≤ float32_value motor.Ki) :
    (MotorDataConverter.encode motor max_buffer_size).2 = 52 ∧
    (MotorDataConverter.round_trip motor out max_buffer_size buffer_size).1 = true ∧
    (MotorDataConverter.round_trip motor out max_buffer_size buffer_size).2.control_system
      = Motor.ControlSystem.Speed ∧
    (MotorDataConverter.round_trip motor out max_buffer_size buffer_size).2.state
      = motor.state ∧
    (|float32_value motor.speed - float32_value
      (MotorDataConverter.round_trip motor out max_buffer_size buffer_size).2.speed|
        ≤ float32_value motor.speed / 127 ↔ bfloat16_keeps_precision motor.speed) ∧
    (|float32_value motor.Kp - float32_value
      (MotorDataConverter.round_trip motor out max_buffer_size buffer_size).2.Kp|
        ≤ float32_value motor.Kp / 127 ↔ bfloat16_keeps_precision motor.Kp) ∧
    (|float32_value motor.Ki - float32_value
      (MotorDataConverter.round_trip motor out max_buffer_size buffer_size).2.Ki|
        ≤ float32_value motor.Ki / 127 ↔ bfloat16_keeps_precision motor.Ki) ∧
    (MotorDataConverter.round_trip motor out max_buffer_size buffer_size).2.Kd
      = (Motor.fresh Motor.ControlSystem.Speed).Kd := by
  have henc : MotorDataConverter.encode motor max_buffer_size
      = SpeedDataConverter.encode motor := by
    simp [MotorDataConverter.encode, hmode]
  unfold MotorDataConverter.round_trip
  rw [henc, speed_decode_encode]
  refine ⟨rfl, rfl, rfl, code_to_state_to_code _ hstate, ?_, ?_, ?_, rfl⟩
  · exact bfloat16_error_iff _ hspeed hspeed0
  · exact bfloat16_error_iff _ hKp hKp0
  · exact bfloat16_error_iff _ hKi hKi0

/-- A command with the subnormal speed 0x00400000 (value 2^(-127)), Kp 0.75, Ki 0.2
(as singles), Kd 5.0 and run state CCW, decoded into a command whose Kd was 1.0: the
run state is restored, the subnormal speed and Ki are within 1/127 of the
originals, and Kd is the default zero. -/
theorem speed_round_trip_witness :
    (MotorDataConverter.round_trip
      ⟨Motor.ControlSystem.Speed, Motor.State.CCW, Motor.Decay.Slow, Motor.PwmSide.Low,
        0, 0x00400000, 0x3F400000, 0x3E4CCCCD, 0x40A00000⟩
      ⟨Motor.ControlSystem.PWM, Motor.State.Coast, Motor.Decay.Slow, Motor.PwmSide.Low,
        0, 0, 0, 0, 0x3F800000⟩ 56 56).2.state = Motor.State.CCW ∧
    |float32_value 0x00400000 - float32_value (MotorDataConverter.round_trip
      ⟨Motor.ControlSystem.Speed, Motor.State.CCW, Motor.Decay.Slow, Motor.PwmSide.Low,
        0, 0x00400000, 0x3F400000, 0x3E4CCCCD, 0x40A00000⟩
      ⟨Motor.ControlSystem.PWM, Motor.State.Coast, Motor.Decay.Slow, Motor.PwmSide.Low,
        0, 0, 0, 0, 0x3F800000⟩ 56 56).2.speed| ≤ float32_value 0x00400000 / 127 ∧
    |float32_value 0x3E4CCCCD - float32_value (MotorDataConverter.round_trip
      ⟨Motor.ControlSystem.Speed, Motor.State.CCW, Motor.Decay.Slow, Motor.PwmSide.Low,
        0, 0x00400000, 0x3F400000, 0x3E4CCCCD, 0x40A00000⟩
      ⟨Motor.ControlSystem.PWM, Motor.State.Coast, Motor.Decay.Slow, Motor.PwmSide.Low,
        0, 0, 0, 0, 0x3F800000⟩ 56 56).2.Ki| ≤ float32_value 0x3E4CCCCD / 127 ∧
    (MotorDataConverter.round_trip
      ⟨Motor.ControlSystem.Speed, Motor.State.CCW, Motor.Decay.Slow, Motor.PwmSide.Low,
        0, 0x00400000, 0x3F400000, 0x3E4CCCCD, 0x40A00000⟩
      ⟨Motor.ControlSystem.PWM, Motor.State.Coast, Motor.Decay.Slow, Motor.PwmSide.Low,
        0, 0, 0, 0, 0x3F800000⟩ 56 56).2.Kd = 0 := by
  have h := speed_round_trip
    ⟨Motor.ControlSystem.Speed, Motor.State.CCW, Motor.Decay.Slow, Motor.PwmSide.Low,
      0, 0x00400000, 0x3F400000, 0x3E4CCCCD, 0x40A00000⟩
    ⟨Motor.ControlSystem.PWM, Motor.State.Coast, Motor.Decay.Slow, Motor.PwmSide.Low,
      0, 0, 0, 0, 0x3F800000⟩ 56 56 rfl (Or.inr (Or.inr (Or.inl rfl)))
    (by decide) (float32_value_nonneg _ (by decide))
    (by decide) (float32_value_nonneg _ (by decide))
    (by decide) (float32_value_nonneg _ (by decide))
  exact ⟨h.2.2.2.1, h.2.2.2.2.1.mpr (by decide), h.2.2.2.2.2.2.1.mpr (by decide),
    h.2.2.2.2.2.2.2⟩

/-! ## The command codec: the header -/

/-- The 2-bit header of a buffer is the two top bits of its first byte. -/
theorem get_range_value_header (byte0 : Nat) (buffer : List Nat) :
    get_range_value (byte0 :: buffer) 0 2 = byte0 / 64 % 4 := by
  simp only [get_range_value, bytes_to_bits, to_bits, List.drop_zero, List.cons_append,
    List.take_succ_cons, List.take_zero, from_bits, List.length_cons, List.length_nil]
  norm_num
  split <;> split <;> omega

/-- C11. Header rejection, on the codec as the specification describes it: for
every buffer whose first byte has the two top bits 10 or 11, whatever its other
six bits and the later bytes are, `decode` returns false and the destination is
returned as it was, in every field. -/
theorem decode_header_rejected (byte0 : Nat) (buffer : List Nat) (buffer_size : Nat)
    (out : Motor) (h : byte0 / 64 % 4 = 2 ∨ byte0 / 64 % 4 = 3) :
    MotorDataConverter.decode (byte0 :: buffer) buffer_size out = (false, out) := by
  unfold MotorDataConverter.decode
  rw [get_range_value_header]
  rcases h with h | h <;> rw [h]

/-- The two failing buffers of the test, first byte 0x80 and 0xC0 of eight, leave a
command in speed mode as it was. -/
theorem decode_header_rejected_witness :
    MotorDataConverter.decode [0x80, 0, 0, 0, 0, 0, 0, 0] 64
        ⟨Motor.ControlSystem.Speed, Motor.State.CW, Motor.Decay.Slow, Motor.PwmSide.Low,
          1 / 2, 7, 8, 9, 10⟩
      = (false, ⟨Motor.ControlSystem.Speed, Motor.State.CW, Motor.Decay.Slow,
          Motor.PwmSide.Low, 1 / 2, 7, 8, 9, 10⟩) ∧
    MotorDataConverter.decode [0xC0, 0, 0, 0, 0, 0, 0, 0] 64
        ⟨Motor.ControlSystem.Speed, Motor.State.CW, Motor.Decay.Slow, Motor.PwmSide.Low,
          1 / 2, 7, 8, 9, 10⟩
      = (false, ⟨Motor.ControlSystem.Speed, Motor.State.CW, Motor.Decay.Slow,
          Motor.PwmSide.Low, 1 / 2, 7, 8, 9, 10⟩) :=
  ⟨decode_header_rejected 0x80 _ 64 _ (Or.inl (by decide)),
    decode_header_rejected 0xC0 _ 64 _ (Or.inr (by decide))⟩

/-- C12. Header acceptance, on the codec as the specification describes it: for
every buffer whose first byte has the two top bits 00, `decode` returns true and
the decoded control mode is PWM; for every buffer whose first byte has the two top
bits 01, `decode` returns true and the decoded control mode is Speed; whatever the
other six bits of that byte and the later bytes are. -/
theorem decode_header_accepted (byte0 : Nat) (buffer : List Nat) (buffer_size : Nat)
    (out : Motor) :
    (byte0 / 64 % 4 = 0 →
      (MotorDataConverter.decode (byte0 :: buffer) buffer_size out).1 = true ∧
      (MotorDataConverter.decode (byte0 :: buffer) buffer_size out).2.control_system
        = Motor.ControlSystem.PWM) ∧
    (byte0 / 64 % 4 = 1 →
      (MotorDataConverter.decode (byte0 :: buffer) buffer_size out).1 = true ∧
      (MotorDataConverter.decode (byte0 :: buffer) buffer_size out).2.control_system
        = Motor.ControlSystem.Speed) := by
  unfold MotorDataConverter.decode
  rw [get_range_value_header]
  constructor <;> intro h <;> rw [h] <;> exact ⟨rfl, rfl⟩

/-- The four accepted buffers of the test: first byte 0x0F and 0x3F decode as PWM,
0x4F and 0x7F as Speed. -/
theorem decode_header_accepted_witness :
    (MotorDataConverter.decode [0x0F, 0, 0, 0, 0, 0, 0, 0] 64
      (Motor.fresh Motor.ControlSystem.Speed)).2.control_system = Motor.ControlSystem.PWM ∧
    (MotorDataConverter.decode [0x3F, 0, 0, 0, 0, 0, 0, 0] 64
      (Motor.fresh Motor.ControlSystem.Speed)).2.control_system = Motor.ControlSystem.PWM ∧
    (MotorDataConverter.decode [0x4F, 0, 0, 0, 0, 0, 0, 0] 64
      (Motor.fresh Motor.ControlSystem.PWM)).2.control_system = Motor.ControlSystem.Speed ∧
    (MotorDataConverter.decode [0x7F, 0, 0, 0, 0, 0, 0, 0] 64
      (Motor.fresh Motor.ControlSystem.PWM)).2.control_system = Motor.ControlSystem.Speed :=
  ⟨((decode_header_accepted 0x0F _ 64 _).1 (by decide)).2,
    ((decode_header_accepted 0x3F _ 64 _).1 (by decide)).2,
    ((decode_header_accepted 0x4F _ 64 _).2 (by decide)).2,
    ((decode_header_accepted 0x7F _ 64 _).2 (by decide)).2⟩

/-! ## The drive algorithm: period, order and frame properties -/

/-- C13. Period bound: `pulse_period(seconds)` appends exactly the three calls
`period(seconds)` on the high-side, low-side and phase outputs, in that order and
nothing else, if and only if min_pulse_period <= seconds <= max_pulse_period;
it appends exactly one InvalidValue diagnostic and nothing else if and only if
seconds is outside that closed range. In both cases no duty or level is written
and no staged field changes. -/
theorem pulse_period_bound (min_pulse_period max_pulse_period : ℚ) (m : A3921) (seconds : ℚ) :
    (A3921.pulse_period min_pulse_period max_pulse_period m seconds
        = m.emits [Event.period PwmPin.pwmh seconds, Event.period PwmPin.pwml seconds,
            Event.period PwmPin.phase seconds]
      ↔ min_pulse_period ≤ seconds ∧ seconds ≤ max_pulse_period) ∧
    (A3921.pulse_period min_pulse_period max_pulse_period m seconds
        = m.emits [Event.error ⟨Error.Kind.InvalidValue, 0, "Invalid motor pulse period (%1.4e)",
            Error.Arg.float seconds, "pulse_period"⟩]
      ↔ ¬ (min_pulse_period ≤ seconds ∧ seconds ≤ max_pulse_period)) := by
  by_cases h : min_pulse_period ≤ seconds ∧ seconds ≤ max_pulse_period
  · simp [A3921.pulse_period, h, A3921.emit, A3921.emits, A3921.error]
  · simp [A3921.pulse_period, h, A3921.emit, A3921.emits, A3921.error]

/-- What `run()` appends depends on the staged fields only, not on the calls
already made, and `run()` changes no staged field. -/
theorem run_eq_emits (d : ℚ) (st : Motor.State) (dec : Motor.Decay) (side : Motor.PwmSide)
    (t : List Event) :
    (⟨d, st, dec, side, t⟩ : A3921).run
      = (⟨d, st, dec, side, t⟩ : A3921).emits (⟨d, st, dec, side, []⟩ : A3921).run.trace := by
  cases dec <;> cases side <;> cases st <;>
    simp [A3921.run, A3921.run_slow_decay, A3921.run_slow_decay_state, A3921.run_fast_decay,
      A3921.sr_write, A3921.pwmh_write, A3921.pwml_write, A3921.phase_write, A3921.error,
      A3921.emit, A3921.emits]

/-- C14. Output range: for a staged command with duty cycle in [0,1], decay Slow or
Fast, one of the four run states and pwm_side Low or High, `run()` appends four
writes whose values for pwm_high_side, pwm_low_side and phase all lie in [0,1]; on
the fast-decay rows the phase written is 1/2 + d/2, in [1/2,1], for CW and
1/2 - d/2, in [0,1/2], for CCW. -/
theorem output_range (m : A3921) (hs : m.supported) (h0 : 0 ≤ m._duty_cycle)
    (h1 : m._duty_cycle ≤ 1) :
    (∃ e hi lo ph, m.run = m.emits (four_writes e hi lo ph) ∧
      (0 ≤ hi ∧ hi ≤ 1) ∧ (0 ≤ lo ∧ lo ≤ 1) ∧ (0 ≤ ph ∧ ph ≤ 1)) ∧
    (m._decay = Motor.Decay.Fast → m._state = Motor.State.CW →
      m.run = m.emits (four_writes 0 1 1 (1 / 2 + m._duty_cycle / 2)) ∧
      1 / 2 ≤ 1 / 2 + m._duty_cycle / 2 ∧ 1 / 2 + m._duty_cycle / 2 ≤ 1) ∧
    (m._decay = Motor.Decay.Fast → m._state = Motor.State.CCW →
      m.run = m.emits (four_writes 0 1 1 (1 / 2 - m._duty_cycle / 2)) ∧
      0 ≤ 1 / 2 - m._duty_cycle / 2 ∧ 1 / 2 - m._duty_cycle / 2 ≤ 1 / 2) := by
  obtain ⟨d, st, dec, side, t⟩ := m
  obtain ⟨hst, hdec, hside⟩ := hs
  simp only at hst hdec hside h0 h1
  refine ⟨?_, ?_, ?_⟩
  · rcases hdec with hd | hd <;> rcases hside with hp | hp <;>
      rcases hst with hr | hr | hr | hr <;> subst hd <;> subst hp <;> subst hr <;>
      refine ⟨_, _, _, _, run_eq_signal_table _ _ rfl, ⟨?_, ?_⟩, ⟨?_, ?_⟩, ⟨?_, ?_⟩⟩ <;>
      linarith
  · intro hd hr
    simp only at hd hr
    subst hd
    subst hr
    refine ⟨run_eq_signal_table _ _ rfl, ?_, ?_⟩ <;> simp only <;> linarith
  · intro hd hr
    simp only at hd hr
    subst hd
    subst hr
    refine ⟨run_eq_signal_table _ _ rfl, ?_, ?_⟩ <;> simp only <;> linarith

/-- A fast-decay clockwise command at duty 1/4 writes the phase 5/8. -/
theorem output_range_witness :
    (⟨1 / 4, Motor.State.CW, Motor.Decay.Fast, Motor.PwmSide.Low, []⟩ : A3921).run
      = (⟨1 / 4, Motor.State.CW, Motor.Decay.Fast, Motor.PwmSide.Low, []⟩ : A3921).emits
          (four_writes 0 1 1 (1 / 2 + 1 / 4 / 2)) ∧
    (1 / 2 : ℚ) ≤ 1 / 2 + 1 / 4 / 2 ∧ (1 / 2 : ℚ) + 1 / 4 / 2 ≤ 1 :=
  (output_range ⟨1 / 4, Motor.State.CW, Motor.Decay.Fast, Motor.PwmSide.Low, []⟩
    (by decide) (by norm_num) (by norm_num)).2.1 rfl rfl

/-- C15. Write order: every `run()` either appends exactly one diagnostic and no
write, or appends exactly four writes in the fixed order bridge_enable,
pwm_high_side, pwm_low_side, phase, none of them a diagnostic; so a `run()` that
reports nothing has written the bridge-enable level first and the phase last. -/
theorem write_order (m : A3921) :
    ((∃ r, m.run = m.emits [Event.error r]) ∨
      (∃ e hi lo ph, m.run = m.emits
        [Event.digital_write DigitalPin.sr e, Event.pwm_write PwmPin.pwmh hi,
         Event.pwm_write PwmPin.pwml lo, Event.pwm_write PwmPin.phase ph])) ∧
    ∀ (e : Int) (hi lo ph : ℚ) (r : Error.Report),
      Event.error r ∉ [Event.digital_write DigitalPin.sr e, Event.pwm_write PwmPin.pwmh hi,
        Event.pwm_write PwmPin.pwml lo, Event.pwm_write PwmPin.phase ph] := by
  constructor
  · obtain ⟨d, st, dec, side, t⟩ := m
    cases dec <;> cases side <;> cases st <;>
      first
      | exact Or.inr ⟨_, _, _, _, run_eq_signal_table _ _ rfl⟩
      | exact Or.inl ⟨_, rfl⟩
  · intro e hi lo ph r
    simp

/-- C16. Fast-decay independence from pwm_side: two staged commands with decay
Fast that agree on run state and duty cycle and differ in pwm_side, whatever was
traced before, make `run()` append one and the same sequence of writes and
diagnostics, and each keeps its own staged fields. -/
theorem fast_decay_pwm_side_independent (d : ℚ) (st : Motor.State)
    (side1 side2 : Motor.PwmSide) (t1 t2 : List Event) :
    ∃ ws, (⟨d, st, Motor.Decay.Fast, side1, t1⟩ : A3921).run
        = (⟨d, st, Motor.Decay.Fast, side1, t1⟩ : A3921).emits ws ∧
      (⟨d, st, Motor.Decay.Fast, side2, t2⟩ : A3921).run
        = (⟨d, st, Motor.Decay.Fast, side2, t2⟩ : A3921).emits ws := by
  refine ⟨(⟨d, st, Motor.Decay.Fast, side1, []⟩ : A3921).run.trace, run_eq_emits _ _ _ _ _, ?_⟩
  have h : (⟨d, st, Motor.Decay.Fast, side1, []⟩ : A3921).run.trace
      = (⟨d, st, Motor.Decay.Fast, side2, []⟩ : A3921).run.trace := by
    cases st <;> rfl
  rw [h]
  exact run_eq_emits _ _ _ _ _

/-- C17. `run()` reads the staged command only: for every stored command, valid or
not, it leaves duty cycle, run state, decay and pwm_side as they were, and a second
`run()` right after the first appends the same sequence of writes and diagnostics
again. -/
theorem run_read_only (m : A3921) :
    m.run._duty_cycle = m._duty_cycle ∧ m.run._state = m._state ∧
    m.run._decay = m._decay ∧ m.run._pwm_side = m._pwm_side ∧
    ∃ ws, m.run = m.emits ws ∧ m.run.run = (m.emits ws).emits ws := by
  obtain ⟨d, st, dec, side, t⟩ := m
  have h := run_eq_emits d st dec side t
  refine ⟨?_, ?_, ?_, ?_, (⟨d, st, dec, side, []⟩ : A3921).run.trace, h, ?_⟩
  · rw [h]; rfl
  · rw [h]; rfl
  · rw [h]; rfl
  · rw [h]; rfl
  · rw [h]
    exact run_eq_emits d st dec side _

/-- C18. Fault recovery sequence: `reset(delay)` appends exactly the write of 0 to
the reset line, one invocation of the delay callable and the write of 1 to the
reset line, in that order, and changes no staged field; that is `sleep(true)`, the
delay, then `sleep(false)`, where `sleep(true)` appends the write of 0 and
`sleep(false)` the write of 1 to the reset line and nothing else. -/
theorem fault_recovery_sequence (m : A3921) :
    m.reset = m.emits [Event.digital_write DigitalPin.reset 0, Event.call_sleep,
      Event.digital_write DigitalPin.reset 1] ∧
    m.reset = ((m.sleep true).emit Event.call_sleep).sleep false ∧
    m.sleep true = m.emits [Event.digital_write DigitalPin.reset 0] ∧
    m.sleep false = m.emits [Event.digital_write DigitalPin.reset 1] := by
  refine ⟨?_, ?_, ?_, ?_⟩ <;>
    simp [A3921.reset, A3921.sleep, A3921.reset_write, A3921.emit, A3921.emits]

/-- C19. Construction leaves the driver awake and coasting: from the default staged
command the constructor appends, in order, the write of 1 to the reset line, the
default pulse period on the high-side, low-side and phase outputs, and the four
writes of one `run()`, bridge_enable 0 and the three duties 0, with no diagnostic;
the staged fields are still the defaults. -/
theorem construction_trace (pulse_period : ℚ) :
    A3921.ctor pulse_period = A3921.initial.emits
      [Event.digital_write DigitalPin.reset 1,
       Event.period PwmPin.pwmh pulse_period,
       Event.period PwmPin.pwml pulse_period,
       Event.period PwmPin.phase pulse_period,
       Event.digital_write DigitalPin.sr 0,
       Event.pwm_write PwmPin.pwmh 0,
       Event.pwm_write PwmPin.pwml 0,
       Event.pwm_write PwmPin.phase 0] := by
  rfl

/-- C20. Fast-decay direction symmetry: at every duty cycle d the CW command writes
(0, 1, 1, 1/2 + d/2) and the CCW command (0, 1, 1, 1/2 - d/2), the same
bridge_enable, pwm_high_side and pwm_low_side and two phases that sum to 1; at
d = 0 the two commands write the same four values, phase 1/2; for d > 0 the CW
phase is strictly greater than the CCW phase. -/
theorem fast_decay_direction_symmetry (d : ℚ) (side : Motor.PwmSide) (t : List Event) :
    (⟨d, Motor.State.CW, Motor.Decay.Fast, side, t⟩ : A3921).run
      = (⟨d, Motor.State.CW, Motor.Decay.Fast, side, t⟩ : A3921).emits
          (four_writes 0 1 1 (1 / 2 + d / 2)) ∧
    (⟨d, Motor.State.CCW, Motor.Decay.Fast, side, t⟩ : A3921).run
      = (⟨d, Motor.State.CCW, Motor.Decay.Fast, side, t⟩ : A3921).emits
          (four_writes 0 1 1 (1 / 2 - d / 2)) ∧
    (1 / 2 + d / 2) + (1 / 2 - d / 2) = 1 ∧
    (⟨0, Motor.State.CW, Motor.Decay.Fast, side, t⟩ : A3921).run
      = (⟨0, Motor.State.CW, Motor.Decay.Fast, side, t⟩ : A3921).emits
          (four_writes 0 1 1 (1 / 2)) ∧
    (⟨0, Motor.State.CCW, Motor.Decay.Fast, side, t⟩ : A3921).run
      = (⟨0, Motor.State.CCW, Motor.Decay.Fast, side, t⟩ : A3921).emits
          (four_writes 0 1 1 (1 / 2)) ∧
    (0 < d → 1 / 2 - d / 2 < 1 / 2 + d / 2) := by
  refine ⟨run_eq_signal_table _ _ rfl, run_eq_signal_table _ _ rfl, by ring, ?_, ?_, ?_⟩
  · have h := run_eq_signal_table (⟨0, Motor.State.CW, Motor.Decay.Fast, side, t⟩ : A3921) _ rfl
    rw [h]
    norm_num
  · have h := run_eq_signal_table (⟨0, Motor.State.CCW, Motor.Decay.Fast, side, t⟩ : A3921) _ rfl
    rw [h]
    norm_num
  · intro hd
    linarith

/-- At duty 1/2 the CW phase 3/4 is above the CCW phase 1/4. -/
theorem fast_decay_direction_symmetry_witness :
    (1 / 2 : ℚ) - 1 / 2 / 2 < 1 / 2 + 1 / 2 / 2 :=
  (fast_decay_direction_symmetry (1 / 2) Motor.PwmSide.Low []).2.2.2.2.2 (by norm_num)

end spirit
